import Mathlib

/-!
Verification development for the sgc tracing garbage collector.

The collector runtime is shallowly embedded: machine addresses are `Nat`,
the collector singleton's mutable data is a `GcState` record, and each
C++ member function becomes a Lean function on `GcState`.  Critical
errors (which in the C++ source invoke the critical-error callback and
then throw) are modelled with `Except String`.  The model corresponds to
the DEBUG build configuration, in which the mark phase checks that field
offsets of a traced type are initialized.
-/

namespace SGC

/-- Mark colors, from GcAllocationColor.hpp. -/
inductive GcAllocationColor
  | WHITE
  | BLACK
deriving DecidableEq, Repr

/-- `sizeof(GcAllocationInfo)`: the fixed byte size of the allocation
info header that sits directly before the user object in an allocation
block.  The concrete value is irrelevant as long as it is positive. -/
def sizeofGcAllocationInfo : Nat := 8

/-- `std::numeric_limits<gcnode_field_offset_t>::max()` where
`gcnode_field_offset_t` is `unsigned int` (32 bits). -/
def gcnodeFieldOffsetMax : Nat := 4294967295

/-- Per-type record, from GcTypeInfo.h: type size, learned GcPtr field
offsets, learned GcContainer field offsets, and the offsets-frozen flag.
(The destructor trampoline is modelled directly in the sweep phase.) -/
structure GcTypeInfo where
  iTypeSize : Nat
  vGcPtrFieldOffsets : List Nat
  vGcContainerFieldOffsets : List Nat
  bAllGcNodeFieldOffsetsInitialized : Bool
deriving DecidableEq, Repr

/-- Dynamic kind of a GC node (the C++ code distinguishes the two kinds
with `dynamic_cast`). -/
inductive GcNodeKind
  | ptrKind
  | containerKind
deriving DecidableEq, Repr

/-- Value carried by a GC node: a pointer node holds its (nullable)
target allocation; a container node holds the targets of the GcPtr
items stored in its backing buffer (the tracer only ever observes those
targets, through the container's static enumeration function). -/
inductive GcNodeVal
  | ptrNode (pAllocation : Option Nat)
  | containerNode (items : List (Option Nat))
deriving DecidableEq, Repr

/-- A GC node (base class GcNode): the immutable is-root flag plus the
node's value. -/
structure GcNode where
  bIsRootNode : Bool
  val : GcNodeVal
deriving DecidableEq, Repr

/-- One live allocation as tracked by the collector: the block address
(the allocation info lives at the block start, the payload at
`blockAddr + sizeofGcAllocationInfo`), the type record id and the
current mark color (the color is the content of the co-located
GcAllocationInfo). -/
structure GcAllocEntry where
  blockAddr : Nat
  typeId : Nat
  color : GcAllocationColor
deriving DecidableEq, Repr

/-- The garbage collector singleton's mutex-guarded data
(GarbageCollector.h), together with the process-wide static type
records and the set of currently alive GC node objects.  All lists used
as sets/maps keep the C++ container semantics needed by the code:
lookups return the first matching entry. -/
structure GcState where
  existingAllocations : List GcAllocEntry
  allocationInfoRefs : List (Nat × Nat)
  gcPtrRootNodes : List Nat
  gcContainerRootNodes : List Nat
  currentlyConstructingObjects : List (Nat × Nat)
  typeInfos : List (Nat × GcTypeInfo)
  nodes : List (Nat × GcNode)
deriving DecidableEq, Repr

/-- Payload address of an allocation block: the user object sits right
after the allocation info header. -/
def payloadAddr (blockAddr : Nat) : Nat :=
  blockAddr + sizeofGcAllocationInfo

/-- Replace the value stored under a key in an association list
(inserting at the end when the key is absent; static type records
always exist in the C++ process, so the insert branch is never taken by
well-formed programs). -/
def updateAssoc {α : Type} : List (Nat × α) → Nat → α → List (Nat × α)
  | [], k, v => [(k, v)]
  | (k₀, v₀) :: rest, k, v =>
      if k₀ = k then (k₀, v) :: rest else (k₀, v₀) :: updateAssoc rest k v

/-- Remove the first pair with the given key from an association list
(`std::unordered_map::erase` by key, which in the code always erases at
most one entry). -/
def eraseAssoc {α : Type} : List (Nat × α) → Nat → List (Nat × α)
  | [], _ => []
  | (k₀, v₀) :: rest, k =>
      if k₀ = k then rest else (k₀, v₀) :: eraseAssoc rest k

/-- Remove the first occurrence of an element from a list
(`std::unordered_set::erase`). -/
def eraseFirst : List Nat → Nat → List Nat
  | [], _ => []
  | x :: xs, a => if x = a then xs else x :: eraseFirst xs a

/-- Look up the value stored under a key in an association list
(`std::unordered_map::find`): the first pair with a matching key
wins. -/
def lookupAssoc {α : Type} : List (Nat × α) → Nat → Option α
  | [], _ => none
  | (k₀, v₀) :: rest, k => if k₀ = k then some v₀ else lookupAssoc rest k

instance {α : Type} [DecidableEq α] : DecidableEq (Except String α) := fun x y =>
  match x, y with
  | Except.ok a, Except.ok b =>
      if h : a = b then Decidable.isTrue (by rw [h])
      else Decidable.isFalse (by intro hc; cases hc; exact h rfl)
  | Except.error a, Except.error b =>
      if h : a = b then Decidable.isTrue (by rw [h])
      else Decidable.isFalse (by intro hc; cases hc; exact h rfl)
  | Except.ok _, Except.error _ => Decidable.isFalse (by intro hc; cases hc)
  | Except.error _, Except.ok _ => Decidable.isFalse (by intro hc; cases hc)

/-- Look up the static type record of a type id.  C++ type records are
address-stable statics that always exist; a missing id yields an empty
record whose offsets were never initialized. -/
def getTypeInfo (st : GcState) (tid : Nat) : GcTypeInfo :=
  (lookupAssoc st.typeInfos tid).getD ⟨0, [], [], false⟩

/-- Store back a type record. -/
def setTypeInfo (st : GcState) (tid : Nat) (ti : GcTypeInfo) : GcState :=
  { st with typeInfos := updateAssoc st.typeInfos tid ti }

/-- Find the allocation entry with the given block address. -/
def findAlloc (st : GcState) (b : Nat) : Option GcAllocEntry :=
  st.existingAllocations.find? (fun e => e.blockAddr = b)

/-- Write the mark color of the allocation at the given block address
(the color lives in the allocation's co-located info object). -/
def setColor (st : GcState) (b : Nat) (c : GcAllocationColor) : GcState :=
  { st with existingAllocations :=
      st.existingAllocations.map (fun e =>
        if e.blockAddr = b then { e with color := c } else e) }

/-- Look up the GC node object at an address. -/
def lookupNode (st : GcState) (a : Nat) : Option GcNode :=
  lookupAssoc st.nodes a

/-- Record a newly constructed GC node object at an address. -/
def addNode (st : GcState) (a : Nat) (n : GcNode) : GcState :=
  { st with nodes := (a, n) :: st.nodes }

/-- Rebind a pointer node's target, keeping its is-root flag. -/
def gcNodeSetPtrTarget (n : GcNode) (t : Option Nat) : GcNode :=
  match n.val with
  | GcNodeVal.ptrNode _ => ⟨n.bIsRootNode, GcNodeVal.ptrNode t⟩
  | v => ⟨n.bIsRootNode, v⟩

/-- Rebind the target of the pointer node at an address (the is-root
flag is never modified after construction). -/
def updateNodeTarget (st : GcState) (a : Nat) (t : Option Nat) : GcState :=
  { st with nodes := st.nodes.map (fun kv =>
      (kv.1, if kv.1 = a then gcNodeSetPtrTarget kv.2 t else kv.2)) }

/-- Option-to-Except helper used where the C++ code dereferences a
pointer that is valid in every real execution. -/
def ofOption {α : Type} : Option α → String → Except String α
  | some a, _ => Except.ok a
  | none, msg => Except.error msg

/-- GcTypeInfo::tryRegisteringGcNodeFieldOffset (GcTypeInfo.cpp).
Returns the possibly-extended type record and whether the node belongs
to the allocation whose payload starts at `ownerAddr`.  When the node
lies in the owner's memory region and the offsets are not yet frozen,
the node's byte offset is appended to the list matching the node's
dynamic kind; an offset that does not fit `unsigned int` is a critical
error. -/
def tryRegisteringGcNodeFieldOffset (ti : GcTypeInfo) (nodeAddr ownerAddr : Nat)
    (kind : GcNodeKind) : Except String (GcTypeInfo × Bool) :=
  if nodeAddr < ownerAddr ∨ nodeAddr ≥ ownerAddr + ti.iTypeSize then
    Except.ok (ti, false)
  else if ti.bAllGcNodeFieldOffsetsInitialized then
    Except.ok (ti, true)
  else
    let iFullOffset := nodeAddr - ownerAddr
    if iFullOffset > gcnodeFieldOffsetMax then
      Except.error "calculated sub-node offset exceeds limit of the type used to store offsets"
    else
      match kind with
      | GcNodeKind.containerKind =>
          Except.ok ({ ti with vGcContainerFieldOffsets :=
            ti.vGcContainerFieldOffsets ++ [iFullOffset] }, true)
      | GcNodeKind.ptrKind =>
          Except.ok ({ ti with vGcPtrFieldOffsets :=
            ti.vGcPtrFieldOffsets ++ [iFullOffset] }, true)

/-- The loop inside GarbageCollector::onGcNodeConstructed: iterate over
the currently constructing allocations from last to first and stop at
the first one that claims the node.  Returns the updated state when a
parent was found. -/
def classifyLoop (st : GcState) (nodeAddr : Nat) (kind : GcNodeKind) :
    List (Nat × Nat) → Except String (Option GcState)
  | [] => Except.ok none
  | (b, tid) :: rest => do
      let ti := getTypeInfo st tid
      let r ← tryRegisteringGcNodeFieldOffset ti nodeAddr (payloadAddr b) kind
      if r.2 then
        Except.ok (some (setTypeInfo st tid r.1))
      else
        classifyLoop st nodeAddr kind rest

/-- GarbageCollector::onGcNodeConstructed (GarbageCollector.cpp): search
the constructing stack newest-first; if no in-flight allocation claims
the node, insert it into the root set matching its dynamic kind.
Returns `true` iff the node was registered as a root node. -/
def onGcNodeConstructed (st : GcState) (nodeAddr : Nat) (kind : GcNodeKind) :
    Except String (GcState × Bool) := do
  let r ← classifyLoop st nodeAddr kind st.currentlyConstructingObjects.reverse
  match r with
  | some st' => Except.ok (st', false)
  | none =>
      match kind with
      | GcNodeKind.containerKind =>
          Except.ok ({ st with gcContainerRootNodes := nodeAddr :: st.gcContainerRootNodes }, true)
      | GcNodeKind.ptrKind =>
          Except.ok ({ st with gcPtrRootNodes := nodeAddr :: st.gcPtrRootNodes }, true)

/-- GcPtrBase::GcPtrBase(bool) (GcPtr.cpp): when the pointer cannot be a
root node the constructor performs no classification at all; otherwise
the garbage collector classifies the node and the result becomes the
is-root flag.  The new pointer node starts with a null target. -/
def gcPtrBaseCtor (st : GcState) (nodeAddr : Nat) (bCanBeRootNode : Bool) :
    Except String GcState :=
  if !bCanBeRootNode then
    Except.ok (addNode st nodeAddr ⟨false, GcNodeVal.ptrNode none⟩)
  else do
    let r ← onGcNodeConstructed st nodeAddr GcNodeKind.ptrKind
    Except.ok (addNode r.1 nodeAddr ⟨r.2, GcNodeVal.ptrNode none⟩)

/-- GcContainerBase::GcContainerBase (GcContainerBase.cpp): always asks
the collector to classify the node.  A GcVector starts empty. -/
def gcContainerBaseCtor (st : GcState) (nodeAddr : Nat) :
    Except String GcState := do
  let r ← onGcNodeConstructed st nodeAddr GcNodeKind.containerKind
  Except.ok (addNode r.1 nodeAddr ⟨r.2, GcNodeVal.containerNode []⟩)

/-- GarbageCollector::onGcRootNodeBeingDestroyed: erase the node from
the root set matching its kind; a root node missing from its root set
is a critical error. -/
def onGcRootNodeBeingDestroyed (st : GcState) (nodeAddr : Nat) (kind : GcNodeKind) :
    Except String GcState :=
  match kind with
  | GcNodeKind.containerKind =>
      if nodeAddr ∈ st.gcContainerRootNodes then
        Except.ok { st with gcContainerRootNodes := eraseFirst st.gcContainerRootNodes nodeAddr }
      else
        Except.error "GC container root node is being destroyed but it is not found in the root set"
  | GcNodeKind.ptrKind =>
      if nodeAddr ∈ st.gcPtrRootNodes then
        Except.ok { st with gcPtrRootNodes := eraseFirst st.gcPtrRootNodes nodeAddr }
      else
        Except.error "GC pointer root node is being destroyed but it is not found in the root set"

/-- GcPtrBase::onGcPtrBeingDestroyed: if the dying pointer is a root
node it removes itself from the root set; the node object then ceases
to exist. -/
def onGcPtrBeingDestroyed (st : GcState) (nodeAddr : Nat) : Except String GcState := do
  let n ← ofOption (lookupNode st nodeAddr) "destroyed GC node not found"
  let st' ←
    if n.bIsRootNode then
      onGcRootNodeBeingDestroyed st nodeAddr GcNodeKind.ptrKind
    else
      Except.ok st
  Except.ok { st' with nodes := st'.nodes.filter (fun kv => !(kv.1 = nodeAddr : Bool)) }

/-- GcPtrBase::setAllocationFromUserObject (GcPtr.cpp): compute the new
value of the internal allocation pointer from a raw user-object
pointer.  A null raw pointer yields a null target; otherwise the
address right before the user object must be a known allocation info,
else the critical-error callback fires and the call throws. -/
def setAllocationFromUserObject (st : GcState) (pUserObject : Option Nat) :
    Except String (Option Nat) :=
  match pUserObject with
  | none => Except.ok none
  | some iTargetObjectAddress =>
      if iTargetObjectAddress < sizeofGcAllocationInfo then
        Except.error "failed to set the specified raw pointer to a GC pointer"
      else
        match lookupAssoc st.allocationInfoRefs (iTargetObjectAddress - sizeofGcAllocationInfo) with
        | none => Except.error "failed to set the specified raw pointer to a GC pointer"
        | some pAllocation => Except.ok (some pAllocation)

/-- GcPtrBase::getUserObject for a stored target: null pointer for an
empty GC pointer, otherwise the payload address of the allocation. -/
def getUserObjectAddr (target : Option Nat) : Nat :=
  match target with
  | none => 0
  | some b => payloadAddr b

/-- GcPtr::operator== compares the user-object addresses of the two
pointers. -/
def gcPtrEq (t₁ t₂ : Option Nat) : Bool :=
  getUserObjectAddr t₁ = getUserObjectAddr t₂

/-- GcAllocation::GcAllocation (GcAllocation.cpp): a freshly carved
block registers itself and its info object in the collector's
database.  The new allocation starts WHITE. -/
def gcAllocationCtor (st : GcState) (blockAddr tid : Nat) : GcState :=
  { st with
    existingAllocations :=
      ⟨blockAddr, tid, GcAllocationColor.WHITE⟩ :: st.existingAllocations,
    allocationInfoRefs := (blockAddr, blockAddr) :: st.allocationInfoRefs }

/-- GcAllocationConstructionGuard constructor: push the allocation onto
the array of currently constructing objects. -/
def constructionGuardPush (st : GcState) (blockAddr tid : Nat) : GcState :=
  { st with currentlyConstructingObjects :=
      st.currentlyConstructingObjects ++ [(blockAddr, tid)] }

/-- GcAllocationConstructionGuard destructor: scan the array of
currently constructing objects front-to-back and erase the first entry
that is this allocation. -/
def constructionGuardPop (st : GcState) (blockAddr : Nat) : GcState :=
  { st with currentlyConstructingObjects :=
      eraseAssoc st.currentlyConstructingObjects blockAddr }

/-- Set a type record's offsets-frozen flag. -/
def freezeTypeInfo (st : GcState) (tid : Nat) : GcState :=
  setTypeInfo st tid
    { getTypeInfo st tid with bAllGcNodeFieldOffsetsInitialized := true }

/-- GcAllocation::registerNewAllocationWithInfo (GcAllocation.h): create
and register the block, run the user type's constructor under a
construction guard, and mark the type's offsets as initialized once the
constructor completed.  `ctor` is the user type's constructor body (it
constructs the type's GC node fields); it returns `false` when the
constructor propagates an exception, in which case the guard is popped
by stack unwinding and the offsets-frozen flag is left untouched.  The
result is the new allocation on success and `none` when the constructor
threw. -/
def registerNewAllocationWithInfo (st : GcState) (blockAddr tid : Nat)
    (ctor : GcState → GcState × Bool) : GcState × Option Nat :=
  let st₁ := gcAllocationCtor st blockAddr tid
  let st₂ := constructionGuardPush st₁ blockAddr tid
  let r := ctor st₂
  let st₃ := constructionGuardPop r.1 blockAddr
  if r.2 then
    (freezeTypeInfo st₃ tid, some blockAddr)
  else
    (st₃, none)

/-- makeGc (GcPtr.h): construct an empty root GcPtr at `ptrVarAddr`,
register a new allocation of type `tid` at `blockAddr` running `ctor`,
and bind the pointer directly to the new allocation.  A constructor
exception propagates out of makeGc. -/
def makeGc (st : GcState) (ptrVarAddr blockAddr tid : Nat)
    (ctor : GcState → GcState × Bool) : Except String GcState := do
  let st₁ ← gcPtrBaseCtor st ptrVarAddr true
  let r := registerNewAllocationWithInfo st₁ blockAddr tid ctor
  match r.2 with
  | some b => Except.ok (updateNodeTarget r.1 ptrVarAddr (some b))
  | none => Except.error "constructor propagated an exception"

/-- GcVector::push_back (GcVector.hpp): copy the argument pointer into
the backing buffer.  The stored copy is a `GcPtr<InnerType, false>`
(never a root node); its copy constructor binds from the source
pointer's raw user-object address through
`setAllocationFromUserObject`. -/
def gcVectorPushBack (st : GcState) (containerAddr : Nat) (srcTarget : Option Nat) :
    Except String GcState := do
  let itemTarget ← setAllocationFromUserObject st
    (match srcTarget with
     | none => none
     | some b => some (payloadAddr b))
  let n ← ofOption (lookupNode st containerAddr) "container node not found"
  match n.val with
  | GcNodeVal.containerNode items =>
      Except.ok { st with nodes := st.nodes.map (fun kv =>
        (kv.1,
          if kv.1 = containerAddr then
            ⟨n.bIsRootNode, GcNodeVal.containerNode (items ++ [itemTarget])⟩
          else kv.2)) }
  | _ => Except.error "push_back on a non-container node"

/-- Reset phase of GarbageCollector::collectGarbage: color every
allocation WHITE before marking. -/
def resetColors (st : GcState) : GcState :=
  { st with existingAllocations :=
      st.existingAllocations.map (fun e => { e with color := GcAllocationColor.WHITE }) }

/-- The body of the visitor shared by the mark lambdas: a pointer whose
target allocation is non-null and still WHITE pushes that allocation
onto the gray buffer (the gray buffer's top is the list head). -/
def pushIfWhiteTarget (st : GcState) (gray : List Nat) (target : Option Nat) :
    Except String (List Nat) :=
  match target with
  | none => Except.ok gray
  | some b => do
      let e ← ofOption (findAlloc st b) "pointer target allocation not found"
      if e.color ≠ GcAllocationColor.WHITE then
        Except.ok gray
      else
        Except.ok (b :: gray)

/-- markContainerItems lambda: run the container's enumeration function
and apply the push-if-white visitor to every stored GcPtr item. -/
def markContainerItems (st : GcState) (gray : List Nat) :
    List (Option Nat) → Except String (List Nat)
  | [] => Except.ok gray
  | t :: rest => do
      let gray' ← pushIfWhiteTarget st gray t
      markContainerItems st gray' rest

/-- Loop over the GcPtr field offsets of an allocation being marked:
read the GcPtr field at each offset from the payload start and apply
the push-if-white visitor to its target. -/
def markPtrFields (st : GcState) (gray : List Nat) (payload : Nat) :
    List Nat → Except String (List Nat)
  | [] => Except.ok gray
  | off :: rest => do
      let n ← ofOption (lookupNode st (payload + off)) "GcPtr field node not found"
      match n.val with
      | GcNodeVal.ptrNode target => do
          let gray' ← pushIfWhiteTarget st gray target
          markPtrFields st gray' payload rest
      | _ => Except.error "GcPtr field offset does not hold a pointer node"

/-- Loop over the GcContainer field offsets of an allocation being
marked: run each container field's enumeration through
markContainerItems. -/
def markContainerFields (st : GcState) (gray : List Nat) (payload : Nat) :
    List Nat → Except String (List Nat)
  | [] => Except.ok gray
  | off :: rest => do
      let n ← ofOption (lookupNode st (payload + off)) "GcContainer field node not found"
      match n.val with
      | GcNodeVal.containerNode items => do
          let gray' ← markContainerItems st gray items
          markContainerFields st gray' payload rest
      | _ => Except.error "GcContainer field offset does not hold a container node"

/-- markAllocationAndProcessFields lambda in
GarbageCollector::collectGarbage: color the allocation BLACK, check
that its type record's field offsets were initialized (critical error
otherwise, DEBUG configuration), then visit every GcPtr field and every
GcContainer field. -/
def markAllocationAndProcessFields (st : GcState) (gray : List Nat) (b : Nat) :
    Except String (GcState × List Nat) := do
  let e ← ofOption (findAlloc st b) "marked allocation not found"
  let st₁ := setColor st b GcAllocationColor.BLACK
  let ti := getTypeInfo st₁ e.typeId
  if ti.bAllGcNodeFieldOffsetsInitialized = false then
    Except.error "found type info with uninitialized field offsets"
  else do
    let gray₁ ← markPtrFields st₁ gray (payloadAddr b) ti.vGcPtrFieldOffsets
    let gray₂ ← markContainerFields st₁ gray₁ (payloadAddr b) ti.vGcContainerFieldOffsets
    Except.ok (st₁, gray₂)

/-- Drain the gray buffer: pop allocations and process each until the
buffer is empty.  The fuel argument only bounds the number of
iterations of this while loop. -/
def drainGray (fuel : Nat) (st : GcState) (gray : List Nat) : Except String GcState :=
  match fuel with
  | 0 => Except.error "out of fuel"
  | fuel + 1 =>
      match gray with
      | [] => Except.ok st
      | b :: rest => do
          let r ← markAllocationAndProcessFields st rest b
          drainGray fuel r.1 r.2

/-- Marking loop over the root GcPtr nodes: a root pointing at a
non-null allocation marks it and drains the gray buffer. -/
def rootPtrLoop (fuel : Nat) (st : GcState) : List Nat → Except String GcState
  | [] => Except.ok st
  | r :: rest => do
      let n ← ofOption (lookupNode st r) "root GcPtr node not found"
      match n.val with
      | GcNodeVal.ptrNode none => rootPtrLoop fuel st rest
      | GcNodeVal.ptrNode (some b) => do
          let m ← markAllocationAndProcessFields st [] b
          let st' ← drainGray fuel m.1 m.2
          rootPtrLoop fuel st' rest
      | _ => Except.error "root GcPtr node is not a pointer node"

/-- Marking loop over the root GcContainer nodes: enumerate each root
container's items and drain the gray buffer. -/
def rootContainerLoop (fuel : Nat) (st : GcState) : List Nat → Except String GcState
  | [] => Except.ok st
  | r :: rest => do
      let n ← ofOption (lookupNode st r) "root GcContainer node not found"
      match n.val with
      | GcNodeVal.containerNode items => do
          let gray ← markContainerItems st [] items
          let st' ← drainGray fuel st gray
          rootContainerLoop fuel st' rest
      | _ => Except.error "root GcContainer node is not a container node"

/-- Destruction of one swept allocation (`delete pAllocation`): the
user type's destructor destroys every GC node object living inside the
payload; a dying node that was a root node removes itself from its
root set. -/
def destroyAllocationNodes (st : GcState) (f : GcAllocEntry) : GcState :=
  let lo := payloadAddr f.blockAddr
  let hi := lo + (getTypeInfo st f.typeId).iTypeSize
  let dying := st.nodes.filter (fun kv => lo ≤ kv.1 ∧ kv.1 < hi)
  let st₁ := { st with nodes := st.nodes.filter (fun kv => ¬(lo ≤ kv.1 ∧ kv.1 < hi)) }
  dying.foldl (fun s kv =>
    if kv.2.bIsRootNode then
      match kv.2.val with
      | GcNodeVal.ptrNode _ =>
          { s with gcPtrRootNodes := eraseFirst s.gcPtrRootNodes kv.1 }
      | GcNodeVal.containerNode _ =>
          { s with gcContainerRootNodes := eraseFirst s.gcContainerRootNodes kv.1 }
    else s) st₁

/-- The per-freed-allocation part of the sweep loop: erase the freed
allocation's info from the info index, then run its destructor. -/
def sweepFoldFn (freed : List GcAllocEntry) (s : GcState) : GcState :=
  freed.foldl (fun s f =>
    destroyAllocationNodes
      { s with allocationInfoRefs := eraseAssoc s.allocationInfoRefs f.blockAddr } f) s

/-- Sweep phase of GarbageCollector::collectGarbage: erase every WHITE
allocation from the allocation set and the info index, run its
destructor (which tears down the GC nodes in its payload) and free it;
the number of deleted user objects is returned. -/
def collectSweep (st : GcState) : GcState × Nat :=
  let freed := st.existingAllocations.filter (fun e => e.color = GcAllocationColor.WHITE)
  let st₁ := { st with existingAllocations :=
      st.existingAllocations.filter (fun e => ¬(e.color = GcAllocationColor.WHITE)) }
  (sweepFoldFn freed st₁, freed.length)

/-- The `freed` list of the sweep: the WHITE allocations. -/
def sweepFreed (st : GcState) : List GcAllocEntry :=
  st.existingAllocations.filter (fun e => e.color = GcAllocationColor.WHITE)

/-- The sweep's intermediate state: the allocation set already shrunk
to the surviving (non-WHITE) allocations. -/
def sweepKept (st : GcState) : GcState :=
  { st with existingAllocations :=
      st.existingAllocations.filter (fun e => ¬(e.color = GcAllocationColor.WHITE)) }

/-- GarbageCollector::collectGarbage: reset colors, mark from the root
GcPtr nodes, mark from the root GcContainer nodes, sweep.  Returns the
final state and the number of deleted user objects.  `fuel` bounds the
gray-buffer draining loops; every terminating C++ execution is
reproduced by a large enough fuel. -/
def collectGarbage (st : GcState) (fuel : Nat) : Except String (GcState × Nat) := do
  let st₀ := resetColors st
  let st₁ ← rootPtrLoop fuel st₀ st₀.gcPtrRootNodes
  let st₂ ← rootContainerLoop fuel st₁ st₁.gcContainerRootNodes
  Except.ok (collectSweep st₂)

/-- GarbageCollector::getAliveAllocationCount. -/
def getAliveAllocationCount (st : GcState) : Nat :=
  st.existingAllocations.length

/-- The color-independent part of the collector state: the node graph
that the mark phase traverses.  Mark only mutates colors, so its
traversal is a function of this view. -/
structure GcView where
  allocTypes : List (Nat × Nat)
  typeInfos : List (Nat × GcTypeInfo)
  nodes : List (Nat × GcNode)
  ptrRoots : List Nat
  containerRoots : List Nat
deriving DecidableEq

/-- Project the color-independent view out of a collector state. -/
def GcState.view (st : GcState) : GcView :=
  ⟨st.existingAllocations.map (fun e => (e.blockAddr, e.typeId)),
   st.typeInfos, st.nodes, st.gcPtrRootNodes, st.gcContainerRootNodes⟩

/-- Type record lookup on a view. -/
def getTypeInfoV (v : GcView) (tid : Nat) : GcTypeInfo :=
  (lookupAssoc v.typeInfos tid).getD ⟨0, [], [], false⟩

/-- Reachability of an allocation from the root set: an edge goes from
a root pointer (or a pointer enumerated by a root container) to its
target allocation, and from an allocation through its type record's
GcPtr field offsets and GcContainer field enumeration to further target
allocations. -/
inductive ReachableV (v : GcView) : Nat → Prop
  | rootPtr {r b : Nat} {rt : Bool} :
      r ∈ v.ptrRoots →
      lookupAssoc v.nodes r = some ⟨rt, GcNodeVal.ptrNode (some b)⟩ →
      ReachableV v b
  | rootContainer {r b : Nat} {rt : Bool} {items : List (Option Nat)} :
      r ∈ v.containerRoots →
      lookupAssoc v.nodes r = some ⟨rt, GcNodeVal.containerNode items⟩ →
      some b ∈ items →
      ReachableV v b
  | fieldPtr {a tid off b : Nat} {rt : Bool} :
      ReachableV v a →
      lookupAssoc v.allocTypes a = some tid →
      off ∈ (getTypeInfoV v tid).vGcPtrFieldOffsets →
      lookupAssoc v.nodes (payloadAddr a + off) = some ⟨rt, GcNodeVal.ptrNode (some b)⟩ →
      ReachableV v b
  | fieldContainer {a tid off b : Nat} {rt : Bool} {items : List (Option Nat)} :
      ReachableV v a →
      lookupAssoc v.allocTypes a = some tid →
      off ∈ (getTypeInfoV v tid).vGcContainerFieldOffsets →
      lookupAssoc v.nodes (payloadAddr a + off) = some ⟨rt, GcNodeVal.containerNode items⟩ →
      some b ∈ items →
      ReachableV v b

/-- First byte of an allocation's payload. -/
def allocLo (e : GcAllocEntry) : Nat := payloadAddr e.blockAddr

/-- One past the last byte of an allocation's payload. -/
def allocHi (st : GcState) (e : GcAllocEntry) : Nat :=
  payloadAddr e.blockAddr + (getTypeInfo st e.typeId).iTypeSize

/-- Address-level sanity of a collector state, true in every state a
real program can produce: root node objects are free-standing variables
and therefore live outside every allocation's payload range. -/
def rootsOutsideB (st : GcState) : Bool :=
  (st.gcPtrRootNodes ++ st.gcContainerRootNodes).all (fun r =>
    st.existingAllocations.all (fun e =>
      decide (r < allocLo e ∨ allocHi st e ≤ r)))

/-- Address-level sanity: distinct allocations are separate heap blocks
with disjoint payload ranges. -/
def pairwiseDisjointB (st : GcState) : List GcAllocEntry → Bool
  | [] => true
  | e :: rest =>
      rest.all (fun f =>
        decide (e.blockAddr ≠ f.blockAddr ∧
          (allocHi st e ≤ allocLo f ∨ allocHi st f ≤ allocLo e))) &&
      pairwiseDisjointB st rest

/-- Sanity of the learned offsets: a field offset always lies inside
its type (field discovery computes it from an address inside the
payload range). -/
def offsetsInRangeB (st : GcState) : Bool :=
  st.existingAllocations.all (fun e =>
    let ti := getTypeInfo st e.typeId
    ti.vGcPtrFieldOffsets.all (fun off => off < ti.iTypeSize) &&
    ti.vGcContainerFieldOffsets.all (fun off => off < ti.iTypeSize))

/-- Conjunction of the address-level sanity conditions that hold in
every state a real program can reach. -/
def wellFormedB (st : GcState) : Bool :=
  rootsOutsideB st && pairwiseDisjointB st st.existingAllocations && offsetsInRangeB st

/-- Target of the pointer node at an address (null when absent). -/
def gcPtrTarget (st : GcState) (a : Nat) : Option Nat :=
  match lookupNode st a with
  | some ⟨_, GcNodeVal.ptrNode t⟩ => t
  | _ => none

/-- GcPtr copy assignment: rebind the destination pointer from the
source pointer's raw user-object address (updateInternalPointers →
setAllocationFromUserObject in GcPtr.h). -/
def gcPtrAssignFrom (st : GcState) (dstAddr : Nat) (srcTarget : Option Nat) :
    Except String GcState := do
  let t ← setAllocationFromUserObject st
    (match srcTarget with
     | none => none
     | some b => some (payloadAddr b))
  Except.ok (updateNodeTarget st dstAddr t)

/-! ### Scenario for claim C1: a self-cyclic object freed only by collection

Type `F` (type id 0, 16 bytes) has a single field `p : Gc<F>` at offset
0.  The program runs `a = makeGc<F>()` with the root pointer variable
`a` at address 1000 and the allocation block at address 5000, then
`a->p = a`, then drops `a`. -/

/-- Constructor body of `F`: constructs the GcPtr field at offset 0 of
the payload of block 5000. -/
def c1CtorF (st : GcState) : GcState × Bool :=
  match gcPtrBaseCtor st (payloadAddr 5000) true with
  | Except.ok s => (s, true)
  | Except.error _ => (st, false)

/-- Initial process state for the C1 scenario: no allocations, no
nodes, one unfrozen type record for `F`. -/
def c1Init : GcState := ⟨[], [], [], [], [], [(0, ⟨16, [], [], false⟩)], []⟩

/-- `a = makeGc<F>()`. -/
def c1AfterMake : Except String GcState :=
  makeGc c1Init 1000 5000 0 c1CtorF

/-- `a->p = a` (the field pointer at payload offset 0 now points back
at the allocation that contains it). -/
def c1AfterCycle : Except String GcState := do
  let st ← c1AfterMake
  gcPtrAssignFrom st (payloadAddr 5000) (gcPtrTarget st 1000)

/-- Drop `a`: the root pointer variable is destroyed. -/
def c1AfterDrop : Except String GcState := do
  let st ← c1AfterCycle
  onGcPtrBeingDestroyed st 1000

/-- The `collect_garbage()` call of the scenario. -/
def c1Collect : Except String (GcState × Nat) := do
  let st ← c1AfterDrop
  collectGarbage st 8

/-! ### Scenario for claim C7: a managed vector field holding a self-reference

Type `Foo` (type id 0, 32 bytes) has a single managed field
`v : GcVector<Gc<Foo>>` at offset 8.  The program runs
`f = makeGc<Foo>()` with the root pointer variable `f` at address 2000
and the allocation block at address 6000, then `f->v.push_back(f)`,
then drops `f`. -/

/-- Constructor body of `Foo`: constructs the GcVector field at offset
8 of the payload of block 6000. -/
def c7CtorFoo (st : GcState) : GcState × Bool :=
  match gcContainerBaseCtor st (payloadAddr 6000 + 8) with
  | Except.ok s => (s, true)
  | Except.error _ => (st, false)

/-- Initial process state for the C7 scenario. -/
def c7Init : GcState := ⟨[], [], [], [], [], [(0, ⟨32, [], [], false⟩)], []⟩

/-- `f = makeGc<Foo>()`. -/
def c7AfterMake : Except String GcState :=
  makeGc c7Init 2000 6000 0 c7CtorFoo

/-- `f->v.push_back(f)`. -/
def c7AfterPush : Except String GcState := do
  let st ← c7AfterMake
  gcVectorPushBack st (payloadAddr 6000 + 8) (gcPtrTarget st 2000)

/-- Drop `f`. -/
def c7AfterDrop : Except String GcState := do
  let st ← c7AfterPush
  onGcPtrBeingDestroyed st 2000

/-- The `collect_garbage()` call of the scenario. -/
def c7Collect : Except String (GcState × Nat) := do
  let st ← c7AfterDrop
  collectGarbage st 8

/-- Whether an `Except` computation ended in the error case (the C++
original invoked the critical-error callback and threw). -/
def exceptIsError {α : Type} : Except String α → Bool
  | Except.error _ => true
  | Except.ok _ => false

/-- Specification-side description (from the wording of claim C3) of
the constructing-stack search: the first in-flight allocation, given
newest-first, whose payload address range contains the node's
address. -/
def specFirstContaining (st : GcState) (nodeAddr : Nat) :
    List (Nat × Nat) → Option (Nat × Nat)
  | [] => none
  | (b, tid) :: rest =>
      if payloadAddr b ≤ nodeAddr ∧ nodeAddr < payloadAddr b + (getTypeInfo st tid).iTypeSize then
        some (b, tid)
      else
        specFirstContaining st nodeAddr rest

/-- Specification-side description (from the wording of claim C3) of
offset recording: the byte offset is appended to the list matching the
node's kind when the type's offsets are not yet frozen, and nothing is
recorded otherwise. -/
def specRegisterOffset (ti : GcTypeInfo) (off : Nat) (kind : GcNodeKind) : GcTypeInfo :=
  if ti.bAllGcNodeFieldOffsetsInitialized then ti
  else
    match kind with
    | GcNodeKind.containerKind =>
        { ti with vGcContainerFieldOffsets := ti.vGcContainerFieldOffsets ++ [off] }
    | GcNodeKind.ptrKind =>
        { ti with vGcPtrFieldOffsets := ti.vGcPtrFieldOffsets ++ [off] }

/-! ### A concrete quiescent collector state used to exercise the
collection theorems: one allocation of a field-free 16-byte type at
block address 100, kept alive by a single root GcPtr node at address
10. -/

/-- The state before collection (all colors WHITE). -/
def collectWitnessState : GcState :=
  ⟨[⟨100, 0, GcAllocationColor.WHITE⟩], [(100, 100)], [10], [], [],
   [(0, ⟨16, [], [], true⟩)], [(10, ⟨true, GcNodeVal.ptrNode (some 100)⟩)]⟩

/-- The same state after collection: the surviving allocation was
marked BLACK, nothing else changed. -/
def collectWitnessStateAfter : GcState :=
  ⟨[⟨100, 0, GcAllocationColor.BLACK⟩], [(100, 100)], [10], [], [],
   [(0, ⟨16, [], [], true⟩)], [(10, ⟨true, GcNodeVal.ptrNode (some 100)⟩)]⟩

/-- GcPtr::GcPtr(Type*) (GcPtr.h): construct a managed pointer at
address `nodeAddr` from a raw user-object pointer: the base-class
constructor classifies the node, then updateInternalPointers binds the
target through setAllocationFromUserObject. -/
def gcPtrCtorFromRaw (st : GcState) (nodeAddr : Nat) (raw : Option Nat) :
    Except String GcState := do
  let st₁ ← gcPtrBaseCtor st nodeAddr true
  let t ← setAllocationFromUserObject st₁ raw
  Except.ok (updateNodeTarget st₁ nodeAddr t)

/-- The allocation at block address `b` is currently colored BLACK. -/
def isBlack (st : GcState) (b : Nat) : Prop :=
  ∃ e, findAlloc st b = some e ∧ e.color = GcAllocationColor.BLACK

/-- All allocation entries sharing a block address agree on their
color (colors are per-address, entries are the set representation). -/
def ColorsSync (st : GcState) : Prop :=
  ∀ e ∈ st.existingAllocations, ∀ f ∈ st.existingAllocations,
    e.blockAddr = f.blockAddr → e.color = f.color

/-- One tracing edge from allocation `a` to allocation `t`: either a
GcPtr field of `a` targets `t`, or a GcContainer field of `a` stores a
GcPtr item targeting `t`. -/
def EdgeTo (v : GcView) (a t : Nat) : Prop :=
  (∃ tid off rt, lookupAssoc v.allocTypes a = some tid ∧
    off ∈ (getTypeInfoV v tid).vGcPtrFieldOffsets ∧
    lookupAssoc v.nodes (payloadAddr a + off) = some ⟨rt, GcNodeVal.ptrNode (some t)⟩) ∨
  (∃ tid off rt items, lookupAssoc v.allocTypes a = some tid ∧
    off ∈ (getTypeInfoV v tid).vGcContainerFieldOffsets ∧
    lookupAssoc v.nodes (payloadAddr a + off) = some ⟨rt, GcNodeVal.containerNode items⟩ ∧
    some t ∈ items)

/-- Invariant of the mark phase: the state differs from the view only
in colors, colors are per-address, every BLACK allocation and every
gray-buffer entry is reachable, and every tracing edge leaving a BLACK
allocation leads to a BLACK allocation or one still in the gray
buffer. -/
def MarkInv (v : GcView) (st : GcState) (gray : List Nat) : Prop :=
  st.view = v ∧
  ColorsSync st ∧
  (∀ b, isBlack st b → ReachableV v b) ∧
  (∀ b ∈ gray, ReachableV v b) ∧
  (∀ a, isBlack st a → ∀ t, EdgeTo v a t → isBlack st t ∨ t ∈ gray)

/-! ## Association list lemmas -/

theorem lookupAssoc_updateAssoc_eq {α : Type} (l : List (Nat × α)) (k : Nat) (v : α) :
    lookupAssoc (updateAssoc l k v) k = some v := by
  induction l with
  | nil => simp [updateAssoc, lookupAssoc]
  | cons p rest ih =>
      obtain ⟨k₀, v₀⟩ := p
      by_cases h : k₀ = k
      · simp [updateAssoc, h, lookupAssoc]
      · simp [updateAssoc, h, lookupAssoc, ih]

theorem lookupAssoc_updateAssoc_ne {α : Type} (l : List (Nat × α)) (k k' : Nat) (v : α)
    (h : k' ≠ k) : lookupAssoc (updateAssoc l k v) k' = lookupAssoc l k' := by
  induction l with
  | nil =>
      have hk : k ≠ k' := fun hc => h hc.symm
      simp [updateAssoc, lookupAssoc, hk]
  | cons p rest ih =>
      obtain ⟨k₀, v₀⟩ := p
      by_cases hp : k₀ = k
      · subst hp
        have hk : k₀ ≠ k' := fun hc => h hc.symm
        simp [updateAssoc, lookupAssoc, hk]
      · simp [updateAssoc, hp, lookupAssoc, ih]

theorem getTypeInfo_setTypeInfo (st : GcState) (tid tid' : Nat) (ti : GcTypeInfo) :
    getTypeInfo (setTypeInfo st tid ti) tid' =
      if tid' = tid then ti else getTypeInfo st tid' := by
  by_cases h : tid' = tid
  · subst h
    simp [getTypeInfo, setTypeInfo, lookupAssoc_updateAssoc_eq]
  · simp [getTypeInfo, setTypeInfo, lookupAssoc_updateAssoc_ne _ _ _ _ h, h]

theorem lookupAssoc_mapVal {α β : Type} (g : Nat → α → β) (l : List (Nat × α)) (x : Nat) :
    lookupAssoc (l.map (fun kv => (kv.1, g kv.1 kv.2))) x = (lookupAssoc l x).map (g x) := by
  induction l with
  | nil => simp [lookupAssoc]
  | cons p rest ih =>
      obtain ⟨k, v⟩ := p
      by_cases h : k = x
      · subst h
        simp [lookupAssoc]
      · simp [lookupAssoc, h, ih]

theorem gcNodeSetPtrTarget_isRoot (n : GcNode) (t : Option Nat) :
    (gcNodeSetPtrTarget n t).bIsRootNode = n.bIsRootNode := by
  cases hv : n.val <;> simp [gcNodeSetPtrTarget, hv]

theorem updateNodeTarget_isRoot (st : GcState) (a : Nat) (t : Option Nat) (x : Nat) :
    (lookupAssoc (updateNodeTarget st a t).nodes x).map GcNode.bIsRootNode =
      (lookupAssoc st.nodes x).map GcNode.bIsRootNode := by
  show (lookupAssoc (st.nodes.map _) x).map GcNode.bIsRootNode = _
  rw [lookupAssoc_mapVal (fun k n => if k = a then gcNodeSetPtrTarget n t else n) st.nodes x]
  cases h : lookupAssoc st.nodes x with
  | none => rfl
  | some n =>
      by_cases hx : x = a <;> simp [hx, gcNodeSetPtrTarget_isRoot]

/-! ## Claim theorems: end-to-end scenarios -/

/-- C1: for a program that creates a single allocation of a type F
whose only field is a managed pointer, sets that field to point to the
allocation itself, and then destroys the only root managed pointer to
it: alive_allocation_count() still returns 1 before collection, the
next collect_garbage() call returns 1, and afterwards
alive_allocation_count() returns 0 and both root sets are empty. -/
theorem c1_self_cycle_scenario :
    c1AfterDrop.map getAliveAllocationCount = Except.ok 1 ∧
    c1Collect.map (fun p => p.2) = Except.ok 1 ∧
    c1Collect.map (fun p => getAliveAllocationCount p.1) = Except.ok 0 ∧
    c1Collect.map (fun p => (p.1.gcPtrRootNodes, p.1.gcContainerRootNodes)) =
      Except.ok ([], []) := by
  refine ⟨?_, ?_, ?_, ?_⟩ <;> decide

/-- C7: for a type Foo whose only managed field is a managed vector of
Gc<Foo>: after f = make_gc<Foo>() and f->v.push_back(f), the pointer
root set has size 1 and the container root set is empty; after dropping
f, collect_garbage() returns 1. -/
theorem c7_vector_scenario :
    c7AfterPush.map (fun st => (st.gcPtrRootNodes.length, st.gcContainerRootNodes)) =
      Except.ok (1, []) ∧
    c7Collect.map (fun p => p.2) = Except.ok 1 := by
  refine ⟨?_, ?_⟩ <;> decide

/-- C10: a managed pointer constructed with the compile-time
can-be-root parameter set to false performs no classification at all:
it is never inserted into any root set, no field offset is recorded in
any type record, the constructing stack is not consulted, and its
is-root flag is false (rebinding the target never changes the is-root
flag of any node). -/
theorem c10_non_root_ptr_ctor (st : GcState) (nodeAddr : Nat) :
    gcPtrBaseCtor st nodeAddr false =
      Except.ok (addNode st nodeAddr ⟨false, GcNodeVal.ptrNode none⟩) ∧
    (addNode st nodeAddr ⟨false, GcNodeVal.ptrNode none⟩).gcPtrRootNodes =
      st.gcPtrRootNodes ∧
    (addNode st nodeAddr ⟨false, GcNodeVal.ptrNode none⟩).gcContainerRootNodes =
      st.gcContainerRootNodes ∧
    (addNode st nodeAddr ⟨false, GcNodeVal.ptrNode none⟩).typeInfos = st.typeInfos ∧
    (addNode st nodeAddr ⟨false, GcNodeVal.ptrNode none⟩).currentlyConstructingObjects =
      st.currentlyConstructingObjects ∧
    lookupNode (addNode st nodeAddr ⟨false, GcNodeVal.ptrNode none⟩) nodeAddr =
      some ⟨false, GcNodeVal.ptrNode none⟩ ∧
    (∀ a t x, (lookupAssoc (updateNodeTarget st a t).nodes x).map GcNode.bIsRootNode =
      (lookupAssoc st.nodes x).map GcNode.bIsRootNode) := by
  refine ⟨rfl, rfl, rfl, rfl, rfl, ?_, fun a t x => updateNodeTarget_isRoot st a t x⟩
  simp [lookupNode, addNode, lookupAssoc]

/-- typeInfos are untouched by color writes. -/
theorem getTypeInfo_setColor (st : GcState) (b : Nat) (c : GcAllocationColor) (tid : Nat) :
    getTypeInfo (setColor st b c) tid = getTypeInfo st tid := rfl

/-- C5: binding a managed pointer to a raw payload pointer raises the
critical-error callback (and does not return normally) if and only if
the raw pointer is non-null and either the address underflow check
fails or the address computed by subtracting sizeof(AllocationInfo) is
absent from the collector's info index; a null raw pointer never fails
and simply yields a null-target pointer, and a raw pointer previously
obtained from make_gc sets the target to the found allocation. -/
theorem c5_bind_error_conditions (st : GcState) (raw : Option Nat) :
    (exceptIsError (setAllocationFromUserObject st raw) = true ↔
      ∃ v, raw = some v ∧
        (v < sizeofGcAllocationInfo ∨
          lookupAssoc st.allocationInfoRefs (v - sizeofGcAllocationInfo) = none)) ∧
    setAllocationFromUserObject st none = Except.ok none ∧
    (∀ v a, raw = some v → ¬v < sizeofGcAllocationInfo →
      lookupAssoc st.allocationInfoRefs (v - sizeofGcAllocationInfo) = some a →
      setAllocationFromUserObject st raw = Except.ok (some a)) := by
  refine ⟨?_, rfl, ?_⟩
  · cases raw with
    | none => simp [setAllocationFromUserObject, exceptIsError]
    | some v =>
        by_cases hv : v < sizeofGcAllocationInfo
        · simp [setAllocationFromUserObject, hv, exceptIsError]
        · cases hl : lookupAssoc st.allocationInfoRefs (v - sizeofGcAllocationInfo) with
          | none => simp [setAllocationFromUserObject, hv, hl, exceptIsError]
          | some a => simp [setAllocationFromUserObject, hv, hl, exceptIsError]
  · intro v a hraw hv hl
    subst hraw
    simp [setAllocationFromUserObject, hv, hl]

/-- Witness for C5 at concrete inputs: binding to the non-null raw
address 3 in a state with an empty info index is a critical error. -/
theorem c5_bind_error_conditions_witness :
    exceptIsError
      (setAllocationFromUserObject (⟨[], [], [], [], [], [], []⟩ : GcState) (some 3)) = true :=
  ((c5_bind_error_conditions ⟨[], [], [], [], [], [], []⟩ (some 3)).1).mpr
    ⟨3, rfl, Or.inl (by decide)⟩

/-- C8: during the mark phase, marking any allocation checks (DEBUG
configuration) that the allocation's type record has its offsets-frozen
flag set to true, and an allocation of a type whose offsets were never
frozen that is reached by the tracer triggers the critical-error
callback. -/
theorem c8_mark_asserts_frozen (st : GcState) (gray : List Nat) (b : Nat)
    (e : GcAllocEntry) (he : findAlloc st b = some e) :
    ((getTypeInfo st e.typeId).bAllGcNodeFieldOffsetsInitialized = false →
      markAllocationAndProcessFields st gray b =
        Except.error "found type info with uninitialized field offsets") ∧
    (∀ r, markAllocationAndProcessFields st gray b = Except.ok r →
      (getTypeInfo st e.typeId).bAllGcNodeFieldOffsetsInitialized = true) := by
  constructor
  · intro hfr
    unfold markAllocationAndProcessFields
    rw [he]
    simp [ofOption, getTypeInfo_setColor, hfr, Bind.bind, Except.bind]
  · intro r hok
    cases hfr : (getTypeInfo st e.typeId).bAllGcNodeFieldOffsetsInitialized with
    | true => rfl
    | false =>
        exfalso
        unfold markAllocationAndProcessFields at hok
        rw [he] at hok
        simp [ofOption, getTypeInfo_setColor, hfr, Bind.bind, Except.bind] at hok

/-- Witness for C8 at concrete inputs: tracing an allocation whose type
record was never frozen is a critical error. -/
theorem c8_mark_asserts_frozen_witness :
    markAllocationAndProcessFields
      (⟨[⟨500, 0, GcAllocationColor.WHITE⟩], [(500, 500)], [], [], [],
        [(0, ⟨16, [], [], false⟩)], []⟩ : GcState) [] 500 =
      Except.error "found type info with uninitialized field offsets" :=
  (c8_mark_asserts_frozen
    ⟨[⟨500, 0, GcAllocationColor.WHITE⟩], [(500, 500)], [], [], [],
      [(0, ⟨16, [], [], false⟩)], []⟩ [] 500
    ⟨500, 0, GcAllocationColor.WHITE⟩ (by decide)).1 (by decide)

/-- Node lookup after a target rebind: the looked-up node is the old
one, with the target rebound when the address matches. -/
theorem lookupNode_updateNodeTarget (st : GcState) (a : Nat) (t : Option Nat) (x : Nat) :
    lookupNode (updateNodeTarget st a t) x =
      (lookupNode st x).map (fun nd => if x = a then gcNodeSetPtrTarget nd t else nd) :=
  lookupAssoc_mapVal (fun k nd => if k = a then gcNodeSetPtrTarget nd t else nd) st.nodes x

/-- Classification of a pointer node on an empty constructing stack:
the node is free-standing, so it becomes a root pointer. -/
theorem onGcNodeConstructed_ptr_emptyStack (st : GcState) (nodeAddr : Nat)
    (hstack : st.currentlyConstructingObjects = []) :
    onGcNodeConstructed st nodeAddr GcNodeKind.ptrKind =
      Except.ok ({ st with gcPtrRootNodes := nodeAddr :: st.gcPtrRootNodes }, true) := by
  unfold onGcNodeConstructed
  rw [hstack]
  rfl

/-- C9: round trip through a raw pointer: for every managed pointer `a`
with a non-null target, constructing a new managed pointer at a fresh
address `n` from the raw payload pointer `a.get()` succeeds and yields
a pointer equal to `a`, where equality compares payload addresses. -/
theorem c9_raw_round_trip (st : GcState) (a n b : Nat)
    (ha : gcPtrTarget st a = some b)
    (hidx : lookupAssoc st.allocationInfoRefs b = some b)
    (hstack : st.currentlyConstructingObjects = [])
    (hna : n ≠ a) :
    ∃ st₂, gcPtrCtorFromRaw st n (some (getUserObjectAddr (gcPtrTarget st a))) =
        Except.ok st₂ ∧
      gcPtrTarget st₂ n = some b ∧
      gcPtrTarget st₂ a = some b ∧
      gcPtrEq (gcPtrTarget st₂ n) (gcPtrTarget st₂ a) = true := by
  have h1 : gcPtrBaseCtor st n true =
      Except.ok (addNode { st with gcPtrRootNodes := n :: st.gcPtrRootNodes } n
        ⟨true, GcNodeVal.ptrNode none⟩) := by
    unfold gcPtrBaseCtor
    rw [onGcNodeConstructed_ptr_emptyStack st n hstack]
    rfl
  set st₁ := addNode { st with gcPtrRootNodes := n :: st.gcPtrRootNodes } n
    ⟨true, GcNodeVal.ptrNode none⟩ with hst₁
  have h2 : setAllocationFromUserObject st₁ (some (payloadAddr b)) =
      Except.ok (some b) := by
    have hge : ¬ payloadAddr b < sizeofGcAllocationInfo :=
      Nat.not_lt.mpr (Nat.le_add_left sizeofGcAllocationInfo b)
    have hl : lookupAssoc st₁.allocationInfoRefs (payloadAddr b - sizeofGcAllocationInfo) =
        some b := by
      have hsub : payloadAddr b - sizeofGcAllocationInfo = b :=
        Nat.add_sub_cancel b sizeofGcAllocationInfo
      show lookupAssoc st.allocationInfoRefs (payloadAddr b - sizeofGcAllocationInfo) = some b
      rw [hsub, hidx]
    simp [setAllocationFromUserObject, hge, hl]
  have hl1 : lookupNode st₁ n = some ⟨true, GcNodeVal.ptrNode none⟩ := by
    show lookupAssoc ((n, ⟨true, GcNodeVal.ptrNode none⟩) :: st.nodes) n = _
    simp [lookupAssoc]
  have hn2 : gcPtrTarget (updateNodeTarget st₁ n (some b)) n = some b := by
    have hl : lookupNode (updateNodeTarget st₁ n (some b)) n =
        some ⟨true, GcNodeVal.ptrNode (some b)⟩ := by
      rw [lookupNode_updateNodeTarget, hl1]
      simp [gcNodeSetPtrTarget]
    unfold gcPtrTarget
    rw [hl]
  have ha2 : gcPtrTarget (updateNodeTarget st₁ n (some b)) a = some b := by
    obtain ⟨rt, hnode⟩ : ∃ rt, lookupNode st a = some ⟨rt, GcNodeVal.ptrNode (some b)⟩ := by
      unfold gcPtrTarget at ha
      cases hn : lookupNode st a with
      | none => rw [hn] at ha; exact absurd ha (by simp)
      | some nd =>
          obtain ⟨rt, val⟩ := nd
          cases val with
          | ptrNode t =>
              rw [hn] at ha
              have ht : t = some b := ha
              subst ht
              exact ⟨rt, rfl⟩
          | containerNode items => rw [hn] at ha; exact absurd ha (by simp)
    have hla : lookupNode st₁ a = lookupNode st a := by
      show lookupAssoc ((n, (⟨true, GcNodeVal.ptrNode none⟩ : GcNode)) :: st.nodes) a =
        lookupAssoc st.nodes a
      simp [lookupAssoc, hna]
    have hlook : lookupNode (updateNodeTarget st₁ n (some b)) a =
        some ⟨rt, GcNodeVal.ptrNode (some b)⟩ := by
      rw [lookupNode_updateNodeTarget, hla, hnode]
      have hna2 : ¬ a = n := fun hc => hna hc.symm
      simp [hna2]
    unfold gcPtrTarget
    rw [hlook]
  refine ⟨updateNodeTarget st₁ n (some b), ?_, hn2, ha2, ?_⟩
  · rw [ha]
    show (do
      let s ← gcPtrBaseCtor st n true
      let t ← setAllocationFromUserObject s (some (getUserObjectAddr (some b)))
      Except.ok (updateNodeTarget s n t)) = _
    rw [h1]
    show (do
      let t ← setAllocationFromUserObject st₁ (some (payloadAddr b))
      Except.ok (updateNodeTarget st₁ n t)) = _
    rw [h2]
    rfl
  · rw [hn2, ha2]
    simp [gcPtrEq]

/-- Witness for C9 at concrete inputs: a one-allocation state whose
root pointer at address 100 targets the allocation at block 500. -/
theorem c9_raw_round_trip_witness :
    ∃ st₂, gcPtrCtorFromRaw
        (⟨[⟨500, 0, GcAllocationColor.BLACK⟩], [(500, 500)], [100], [], [],
          [(0, ⟨16, [], [], true⟩)], [(100, ⟨true, GcNodeVal.ptrNode (some 500)⟩)]⟩ : GcState)
        200
        (some (getUserObjectAddr (gcPtrTarget
          (⟨[⟨500, 0, GcAllocationColor.BLACK⟩], [(500, 500)], [100], [], [],
            [(0, ⟨16, [], [], true⟩)], [(100, ⟨true, GcNodeVal.ptrNode (some 500)⟩)]⟩ : GcState)
          100))) = Except.ok st₂ ∧
      gcPtrTarget st₂ 200 = some 500 ∧
      gcPtrTarget st₂ 100 = some 500 ∧
      gcPtrEq (gcPtrTarget st₂ 200) (gcPtrTarget st₂ 100) = true :=
  c9_raw_round_trip
    ⟨[⟨500, 0, GcAllocationColor.BLACK⟩], [(500, 500)], [100], [], [],
      [(0, ⟨16, [], [], true⟩)], [(100, ⟨true, GcNodeVal.ptrNode (some 500)⟩)]⟩
    100 200 500 (by decide) (by decide) rfl (by decide)

/-- A frozen type record is returned unchanged by field registration,
whatever the containment outcome. -/
theorem tryRegistering_frozen (ti : GcTypeInfo) (nodeAddr ownerAddr : Nat)
    (kind : GcNodeKind) (hfr : ti.bAllGcNodeFieldOffsetsInitialized = true) :
    ∃ inRange, tryRegisteringGcNodeFieldOffset ti nodeAddr ownerAddr kind =
      Except.ok (ti, inRange) := by
  unfold tryRegisteringGcNodeFieldOffset
  by_cases hc : nodeAddr < ownerAddr ∨ nodeAddr ≥ ownerAddr + ti.iTypeSize
  · exact ⟨false, by rw [if_pos hc]⟩
  · exact ⟨true, by rw [if_neg hc, if_pos hfr]⟩

/-- The construction-guard pop does not touch the type records. -/
theorem constructionGuardPop_typeInfos (st : GcState) (b : Nat) :
    (constructionGuardPop st b).typeInfos = st.typeInfos := rfl

/-- registerNewAllocationWithInfo on a normally completing
constructor. -/
theorem registerNewAllocationWithInfo_ok (st : GcState) (blockAddr tid : Nat)
    (ctor : GcState → GcState × Bool)
    (h : (ctor (constructionGuardPush (gcAllocationCtor st blockAddr tid) blockAddr tid)).2
      = true) :
    registerNewAllocationWithInfo st blockAddr tid ctor =
      (freezeTypeInfo
        (constructionGuardPop
          (ctor (constructionGuardPush (gcAllocationCtor st blockAddr tid) blockAddr tid)).1
          blockAddr) tid,
       some blockAddr) := by
  simp only [registerNewAllocationWithInfo, h, if_true]

/-- registerNewAllocationWithInfo on a constructor that propagates an
exception: the guard is popped by unwinding and the offsets-frozen flag
is left untouched. -/
theorem registerNewAllocationWithInfo_err (st : GcState) (blockAddr tid : Nat)
    (ctor : GcState → GcState × Bool)
    (h : (ctor (constructionGuardPush (gcAllocationCtor st blockAddr tid) blockAddr tid)).2
      = false) :
    registerNewAllocationWithInfo st blockAddr tid ctor =
      (constructionGuardPop
        (ctor (constructionGuardPush (gcAllocationCtor st blockAddr tid) blockAddr tid)).1
        blockAddr,
       none) := by
  simp [registerNewAllocationWithInfo, h]

/-- A type record that is frozen stays untouched through any node
classification: the constructing-stack search never modifies the
records of frozen types. -/
theorem classifyLoop_frozen_preserves (st : GcState) (nodeAddr : Nat) (kind : GcNodeKind)
    (tid : Nat) (hfr : (getTypeInfo st tid).bAllGcNodeFieldOffsetsInitialized = true) :
    ∀ stack st', classifyLoop st nodeAddr kind stack = Except.ok (some st') →
      getTypeInfo st' tid = getTypeInfo st tid := by
  intro stack
  induction stack with
  | nil =>
      intro st' h
      simp [classifyLoop] at h
  | cons p rest ih =>
      obtain ⟨b', tid'⟩ := p
      intro st' h
      unfold classifyLoop at h
      cases htr : tryRegisteringGcNodeFieldOffset (getTypeInfo st tid') nodeAddr
          (payloadAddr b') kind with
      | error e => simp [htr, Bind.bind, Except.bind] at h
      | ok r =>
          simp only [Bind.bind, Except.bind, htr] at h
          by_cases hr2 : r.2 = true
          · simp only [hr2, if_true] at h
            have hst' : setTypeInfo st tid' r.1 = st' := by
              injection h with h'
              injection h'
            by_cases htid : tid' = tid
            · subst htid
              obtain ⟨inR, heq⟩ := tryRegistering_frozen (getTypeInfo st tid') nodeAddr
                (payloadAddr b') kind hfr
              rw [heq] at htr
              injection htr with htr'
              have hr1 : r.1 = getTypeInfo st tid' := by rw [← htr']
              rw [← hst', hr1, getTypeInfo_setTypeInfo]
              simp
            · have htid2 : ¬tid = tid' := fun hc => htid hc.symm
              rw [← hst', getTypeInfo_setTypeInfo]
              simp [htid2]
          · simp only [hr2, if_false] at h
            exact ih st' h

/-- C6: for every managed type T, offsets are appended to T's type
record only while its offsets-frozen flag is false (a frozen record is
returned unchanged); the flag is set to true exactly when a
construction of T through make_gc completes normally, after which no
later construction appends any offset to it; and when T's constructor
propagates an exception the flag is not set by the allocation layer, so
T's offsets are not frozen by that construction. -/
theorem c6_offsets_frozen_discipline
    (ti : GcTypeInfo) (nodeAddr ownerAddr : Nat) (kind : GcNodeKind)
    (st : GcState) (blockAddr tid : Nat) (ctor : GcState → GcState × Bool)
    (st₀ : GcState) (nodeAddr₀ : Nat) (kind₀ : GcNodeKind) (tid₀ : Nat) :
    (ti.bAllGcNodeFieldOffsetsInitialized = true →
      ∃ inRange, tryRegisteringGcNodeFieldOffset ti nodeAddr ownerAddr kind =
        Except.ok (ti, inRange)) ∧
    ((registerNewAllocationWithInfo st blockAddr tid ctor).2.isSome = true →
      (getTypeInfo (registerNewAllocationWithInfo st blockAddr tid ctor).1
        tid).bAllGcNodeFieldOffsetsInitialized = true) ∧
    ((registerNewAllocationWithInfo st blockAddr tid ctor).2 = none →
      (registerNewAllocationWithInfo st blockAddr tid ctor).1.typeInfos =
        (ctor (constructionGuardPush (gcAllocationCtor st blockAddr tid)
          blockAddr tid)).1.typeInfos) ∧
    ((getTypeInfo st₀ tid₀).bAllGcNodeFieldOffsetsInitialized = true →
      ∀ st₂ r, onGcNodeConstructed st₀ nodeAddr₀ kind₀ = Except.ok (st₂, r) →
        getTypeInfo st₂ tid₀ = getTypeInfo st₀ tid₀) := by
  refine ⟨?_, ?_, ?_, ?_⟩
  · exact tryRegistering_frozen ti nodeAddr ownerAddr kind
  · intro hsome
    cases hr : (ctor (constructionGuardPush (gcAllocationCtor st blockAddr tid)
        blockAddr tid)).2 with
    | true =>
        rw [registerNewAllocationWithInfo_ok st blockAddr tid ctor hr]
        show (getTypeInfo (freezeTypeInfo _ tid) tid).bAllGcNodeFieldOffsetsInitialized = true
        unfold freezeTypeInfo
        rw [getTypeInfo_setTypeInfo]
        simp
    | false =>
        rw [registerNewAllocationWithInfo_err st blockAddr tid ctor hr] at hsome
        simp at hsome
  · intro hnone
    cases hr : (ctor (constructionGuardPush (gcAllocationCtor st blockAddr tid)
        blockAddr tid)).2 with
    | true =>
        rw [registerNewAllocationWithInfo_ok st blockAddr tid ctor hr] at hnone
        simp at hnone
    | false =>
        rw [registerNewAllocationWithInfo_err st blockAddr tid ctor hr]
        rfl
  · intro hfr st₂ r hok
    unfold onGcNodeConstructed at hok
    cases hcl : classifyLoop st₀ nodeAddr₀ kind₀
        st₀.currentlyConstructingObjects.reverse with
    | error e => simp [hcl, Bind.bind, Except.bind] at hok
    | ok res =>
        simp only [Bind.bind, Except.bind, hcl] at hok
        cases res with
        | some st' =>
            have hst : st' = st₂ := by
              injection hok with h'
              injection h' with h1 h2
            rw [← hst]
            exact classifyLoop_frozen_preserves st₀ nodeAddr₀ kind₀ tid₀ hfr
              st₀.currentlyConstructingObjects.reverse st' hcl
        | none =>
            cases kind₀ with
            | ptrKind =>
                have hst : ({ st₀ with gcPtrRootNodes :=
                    nodeAddr₀ :: st₀.gcPtrRootNodes } : GcState) = st₂ := by
                  injection hok with h'
                  injection h' with h1 h2
                rw [← hst]
                rfl
            | containerKind =>
                have hst : ({ st₀ with gcContainerRootNodes :=
                    nodeAddr₀ :: st₀.gcContainerRootNodes } : GcState) = st₂ := by
                  injection hok with h'
                  injection h' with h1 h2
                rw [← hst]
                rfl

/-- Witness for C6 at concrete inputs: a frozen single-type state, a
constructor body that completes normally, and one that throws. -/
theorem c6_offsets_frozen_discipline_witness :
    ((⟨16, [0], [], true⟩ : GcTypeInfo).bAllGcNodeFieldOffsetsInitialized = true →
      ∃ inRange, tryRegisteringGcNodeFieldOffset ⟨16, [0], [], true⟩ 508 508
        GcNodeKind.ptrKind = Except.ok (⟨16, [0], [], true⟩, inRange)) ∧
    ((registerNewAllocationWithInfo
        (⟨[], [], [], [], [], [(0, ⟨16, [], [], false⟩)], []⟩ : GcState) 500 0
        (fun s => (s, true))).2.isSome = true →
      (getTypeInfo (registerNewAllocationWithInfo
        (⟨[], [], [], [], [], [(0, ⟨16, [], [], false⟩)], []⟩ : GcState) 500 0
        (fun s => (s, true))).1 0).bAllGcNodeFieldOffsetsInitialized = true) ∧
    ((registerNewAllocationWithInfo
        (⟨[], [], [], [], [], [(0, ⟨16, [], [], false⟩)], []⟩ : GcState) 500 0
        (fun s => (s, true))).2 = none →
      (registerNewAllocationWithInfo
        (⟨[], [], [], [], [], [(0, ⟨16, [], [], false⟩)], []⟩ : GcState) 500 0
        (fun s => (s, true))).1.typeInfos =
        ((fun (s : GcState) => (s, true)) (constructionGuardPush (gcAllocationCtor
          (⟨[], [], [], [], [], [(0, ⟨16, [], [], false⟩)], []⟩ : GcState) 500 0)
          500 0)).1.typeInfos) ∧
    ((getTypeInfo (⟨[], [], [], [], [], [(0, ⟨16, [], [], true⟩)], []⟩ : GcState)
        0).bAllGcNodeFieldOffsetsInitialized = true →
      ∀ st₂ r, onGcNodeConstructed
          (⟨[], [], [], [], [], [(0, ⟨16, [], [], true⟩)], []⟩ : GcState) 300
          GcNodeKind.ptrKind = Except.ok (st₂, r) →
        getTypeInfo st₂ 0 =
          getTypeInfo (⟨[], [], [], [], [], [(0, ⟨16, [], [], true⟩)], []⟩ : GcState) 0) :=
  c6_offsets_frozen_discipline ⟨16, [0], [], true⟩ 508 508 GcNodeKind.ptrKind
    ⟨[], [], [], [], [], [(0, ⟨16, [], [], false⟩)], []⟩ 500 0 (fun s => (s, true))
    ⟨[], [], [], [], [], [(0, ⟨16, [], [], true⟩)], []⟩ 300 GcNodeKind.ptrKind 0

theorem lookupAssoc_mem {α : Type} (l : List (Nat × α)) (k : Nat) (v : α)
    (h : lookupAssoc l k = some v) : (k, v) ∈ l := by
  induction l with
  | nil => simp [lookupAssoc] at h
  | cons p rest ih =>
      obtain ⟨k₀, v₀⟩ := p
      by_cases hk : k₀ = k
      · subst hk
        simp [lookupAssoc] at h
        subst h
        exact List.mem_cons_self _ _
      · simp [lookupAssoc, hk] at h
        exact List.mem_cons_of_mem _ (ih h)

/-- The constructing-stack search of onGcNodeConstructed agrees with
its specification: the first entry whose payload range contains the
node's address wins and has the node's offset recorded; when no entry
contains the address the search reports no parent and leaves the state
untouched. -/
theorem classifyLoop_spec (st : GcState) (nodeAddr : Nat) (kind : GcNodeKind)
    (hsize : ∀ tid, (getTypeInfo st tid).iTypeSize ≤ 4294967296) :
    ∀ stack,
      (match specFirstContaining st nodeAddr stack with
       | some (b, tid) =>
           classifyLoop st nodeAddr kind stack =
             Except.ok (some (setTypeInfo st tid
               (specRegisterOffset (getTypeInfo st tid) (nodeAddr - payloadAddr b) kind)))
       | none => classifyLoop st nodeAddr kind stack = Except.ok none) := by
  intro stack
  induction stack with
  | nil => simp [specFirstContaining, classifyLoop]
  | cons p rest ih =>
      obtain ⟨b, tid⟩ := p
      by_cases hc : payloadAddr b ≤ nodeAddr ∧
          nodeAddr < payloadAddr b + (getTypeInfo st tid).iTypeSize
      · have hnot : ¬(nodeAddr < payloadAddr b ∨
            nodeAddr ≥ payloadAddr b + (getTypeInfo st tid).iTypeSize) := by
          push_neg
          exact ⟨hc.1, hc.2⟩
        have hoff : ¬nodeAddr - payloadAddr b > gcnodeFieldOffsetMax := by
          have h1 : nodeAddr - payloadAddr b < (getTypeInfo st tid).iTypeSize := by
            omega
          have h2 := hsize tid
          unfold gcnodeFieldOffsetMax
          omega
        have htr : tryRegisteringGcNodeFieldOffset (getTypeInfo st tid) nodeAddr
            (payloadAddr b) kind =
            Except.ok (specRegisterOffset (getTypeInfo st tid)
              (nodeAddr - payloadAddr b) kind, true) := by
          unfold tryRegisteringGcNodeFieldOffset specRegisterOffset
          rw [if_neg hnot]
          by_cases hfr : (getTypeInfo st tid).bAllGcNodeFieldOffsetsInitialized = true
          · rw [if_pos hfr, if_pos hfr]
          · rw [if_neg hfr, if_neg hfr]
            simp only [if_neg hoff]
            cases kind <;> rfl
        simp only [specFirstContaining, if_pos hc]
        unfold classifyLoop
        simp [Bind.bind, Except.bind, htr]
      · have hyes : nodeAddr < payloadAddr b ∨
            nodeAddr ≥ payloadAddr b + (getTypeInfo st tid).iTypeSize := by
          by_cases hlt : nodeAddr < payloadAddr b
          · exact Or.inl hlt
          · refine Or.inr ?_
            by_contra hge
            exact hc ⟨Nat.not_lt.mp hlt, Nat.not_le.mp hge⟩
        have htr : tryRegisteringGcNodeFieldOffset (getTypeInfo st tid) nodeAddr
            (payloadAddr b) kind = Except.ok (getTypeInfo st tid, false) := by
          unfold tryRegisteringGcNodeFieldOffset
          rw [if_pos hyes]
        have hstep : classifyLoop st nodeAddr kind ((b, tid) :: rest) =
            classifyLoop st nodeAddr kind rest := by
          conv_lhs => unfold classifyLoop
          simp [Bind.bind, Except.bind, htr]
        cases hsp : specFirstContaining st nodeAddr rest with
        | some p' =>
            obtain ⟨b', tid'⟩ := p'
            simp only [specFirstContaining, if_neg hc, hsp]
            simp only [hsp] at ih
            rw [hstep]
            exact ih
        | none =>
            simp only [specFirstContaining, if_neg hc, hsp]
            simp only [hsp] at ih
            rw [hstep]
            exact ih

/-- C3: when a managed node is constructed, the constructing stack is
searched from the newest in-flight allocation to the oldest; the first
in-flight allocation whose payload address range contains the node's
address becomes its parent, the node is classified non-root (and its
byte offset is recorded in the parent type's pointer-offset or
container-offset list when that type's offsets are not yet frozen), and
the search stops (only that type's record can change); if no in-flight
allocation's payload range contains the node's address, the node is
classified as a root and inserted into the pointer root set or the
container root set according to its kind. -/
theorem c3_node_classification (st : GcState) (nodeAddr : Nat) (kind : GcNodeKind)
    (hsize : ∀ p ∈ st.typeInfos, p.2.iTypeSize ≤ 4294967296) :
    match specFirstContaining st nodeAddr st.currentlyConstructingObjects.reverse with
    | some (b, tid) =>
        onGcNodeConstructed st nodeAddr kind =
          Except.ok (setTypeInfo st tid
            (specRegisterOffset (getTypeInfo st tid) (nodeAddr - payloadAddr b) kind),
           false)
    | none =>
        onGcNodeConstructed st nodeAddr kind =
          Except.ok
            ((match kind with
              | GcNodeKind.containerKind =>
                  { st with gcContainerRootNodes := nodeAddr :: st.gcContainerRootNodes }
              | GcNodeKind.ptrKind =>
                  { st with gcPtrRootNodes := nodeAddr :: st.gcPtrRootNodes }),
             true) := by
  have hsize' : ∀ tid, (getTypeInfo st tid).iTypeSize ≤ 4294967296 := by
    intro tid
    unfold getTypeInfo
    cases hl : lookupAssoc st.typeInfos tid with
    | none => simp
    | some ti => simpa using hsize (tid, ti) (lookupAssoc_mem _ _ _ hl)
  have hloop := classifyLoop_spec st nodeAddr kind hsize'
    st.currentlyConstructingObjects.reverse
  cases hsp : specFirstContaining st nodeAddr st.currentlyConstructingObjects.reverse with
  | some p =>
      obtain ⟨b, tid⟩ := p
      simp only [hsp] at hloop ⊢
      unfold onGcNodeConstructed
      simp [Bind.bind, Except.bind, hloop]
  | none =>
      simp only [hsp] at hloop ⊢
      unfold onGcNodeConstructed
      cases kind <;> simp [Bind.bind, Except.bind, hloop]

/-- Witness for C3 at concrete inputs: a node at address 508 is
constructed while the allocation at block 500 (payload 508..524, type
id 0) is in flight, so the node is attributed to it at offset 0; and in
the same state a node at the unrelated address 9000 becomes a root. -/
theorem c3_node_classification_witness :
    (∀ p ∈ ([(0, (⟨16, [], [], false⟩ : GcTypeInfo))] : List (Nat × GcTypeInfo)),
      p.2.iTypeSize ≤ 4294967296) ∧
    onGcNodeConstructed
      (⟨[⟨500, 0, GcAllocationColor.WHITE⟩], [(500, 500)], [], [], [(500, 0)],
        [(0, ⟨16, [], [], false⟩)], []⟩ : GcState) 508 GcNodeKind.ptrKind =
      Except.ok (setTypeInfo
        (⟨[⟨500, 0, GcAllocationColor.WHITE⟩], [(500, 500)], [], [], [(500, 0)],
          [(0, ⟨16, [], [], false⟩)], []⟩ : GcState) 0
        (specRegisterOffset (getTypeInfo
          (⟨[⟨500, 0, GcAllocationColor.WHITE⟩], [(500, 500)], [], [], [(500, 0)],
            [(0, ⟨16, [], [], false⟩)], []⟩ : GcState) 0)
          (508 - payloadAddr 500) GcNodeKind.ptrKind), false) := by
  constructor
  · decide
  · exact c3_node_classification
      ⟨[⟨500, 0, GcAllocationColor.WHITE⟩], [(500, 500)], [], [], [(500, 0)],
        [(0, ⟨16, [], [], false⟩)], []⟩ 508 GcNodeKind.ptrKind (by decide)

/-! ## Mark-phase infrastructure: views, colors, synchronization -/

theorem map_entry_pair (f : GcAllocEntry → GcAllocEntry)
    (hf : ∀ e, (f e).blockAddr = e.blockAddr ∧ (f e).typeId = e.typeId)
    (l : List GcAllocEntry) :
    (l.map f).map (fun e => (e.blockAddr, e.typeId)) =
      l.map (fun e => (e.blockAddr, e.typeId)) := by
  induction l with
  | nil => rfl
  | cons e rest ih => simp [(hf e).1, (hf e).2, ih]

theorem view_setColor (st : GcState) (b : Nat) (c : GcAllocationColor) :
    (setColor st b c).view = st.view := by
  unfold GcState.view setColor
  congr 1
  exact map_entry_pair _
    (fun e => by by_cases h : e.blockAddr = b <;> simp [h]) _

theorem view_resetColors (st : GcState) :
    (resetColors st).view = st.view := by
  unfold GcState.view resetColors
  congr 1
  exact map_entry_pair _ (fun e => by simp) _

theorem findAlloc_blockAddr (st : GcState) (x : Nat) (e : GcAllocEntry)
    (h : findAlloc st x = some e) : e.blockAddr = x := by
  unfold findAlloc at h
  have := List.find?_some h
  simpa using this

theorem findAlloc_mem (st : GcState) (x : Nat) (e : GcAllocEntry)
    (h : findAlloc st x = some e) : e ∈ st.existingAllocations :=
  List.mem_of_find?_eq_some h

theorem find?_map_pres {α : Type} (p : α → Bool) (f : α → α)
    (hpf : ∀ e, p (f e) = p e) (l : List α) :
    (l.map f).find? p = (l.find? p).map f := by
  induction l with
  | nil => rfl
  | cons e rest ih =>
      cases hp : p e with
      | true => simp [List.find?_cons, hpf e, hp]
      | false => simp [List.find?_cons, hpf e, hp, ih]

theorem findAlloc_setColor (st : GcState) (b : Nat) (c : GcAllocationColor) (x : Nat) :
    findAlloc (setColor st b c) x =
      (findAlloc st x).map (fun e =>
        if e.blockAddr = b then { e with color := c } else e) := by
  unfold findAlloc setColor
  exact find?_map_pres _ _
    (fun e => by by_cases hb : e.blockAddr = b <;> simp [hb]) _

theorem isBlack_mono_setColor (st : GcState) (b x : Nat) (h : isBlack st x) :
    isBlack (setColor st b GcAllocationColor.BLACK) x := by
  obtain ⟨e, he, hc⟩ := h
  refine ⟨if e.blockAddr = b then { e with color := GcAllocationColor.BLACK } else e, ?_, ?_⟩
  · rw [findAlloc_setColor, he]
    rfl
  · by_cases hb : e.blockAddr = b <;> simp [hb, hc]

theorem isBlack_setColor_self (st : GcState) (b : Nat) (e : GcAllocEntry)
    (he : findAlloc st b = some e) :
    isBlack (setColor st b GcAllocationColor.BLACK) b := by
  have hb : e.blockAddr = b := findAlloc_blockAddr st b e he
  refine ⟨{ e with color := GcAllocationColor.BLACK }, ?_, rfl⟩
  rw [findAlloc_setColor, he]
  simp [hb]

theorem isBlack_setColor_inv (st : GcState) (b x : Nat)
    (h : isBlack (setColor st b GcAllocationColor.BLACK) x) :
    isBlack st x ∨ x = b := by
  obtain ⟨e', he', hc'⟩ := h
  rw [findAlloc_setColor] at he'
  cases hfa : findAlloc st x with
  | none => rw [hfa] at he'; cases he'
  | some e =>
      rw [hfa] at he'
      have he2 : (if e.blockAddr = b then { e with color := GcAllocationColor.BLACK } else e)
          = e' := by
        injection he'
      by_cases hb : e.blockAddr = b
      · right
        rw [← findAlloc_blockAddr st x e hfa, hb]
      · left
        refine ⟨e, hfa, ?_⟩
        rw [if_neg hb] at he2
        rw [he2]
        exact hc'

theorem colorsSync_resetColors (st : GcState) : ColorsSync (resetColors st) := by
  intro e he f hf _
  obtain ⟨e₀, _, rfl⟩ := List.mem_map.mp he
  obtain ⟨f₀, _, rfl⟩ := List.mem_map.mp hf
  rfl

theorem colorsSync_setColor (st : GcState) (b : Nat) (c : GcAllocationColor)
    (h : ColorsSync st) : ColorsSync (setColor st b c) := by
  intro e' he' f' hf' hab
  obtain ⟨e, he, rfl⟩ := List.mem_map.mp he'
  obtain ⟨f, hf, rfl⟩ := List.mem_map.mp hf'
  by_cases hb : e.blockAddr = b <;> by_cases hb' : f.blockAddr = b <;>
    simp [hb, hb'] at hab ⊢ <;>
    first
    | exact h e he f hf hab
    | exact absurd hab.symm hb'

theorem isBlack_of_mem_sync (st : GcState) (hsync : ColorsSync st) (e : GcAllocEntry)
    (he : e ∈ st.existingAllocations) (hc : e.color = GcAllocationColor.BLACK) :
    isBlack st e.blockAddr := by
  cases hfa : findAlloc st e.blockAddr with
  | none =>
      exfalso
      have := List.find?_eq_none.mp hfa e he
      simp at this
  | some e₁ =>
      refine ⟨e₁, hfa, ?_⟩
      have h₁ : e₁ ∈ st.existingAllocations := findAlloc_mem st e.blockAddr e₁ hfa
      have h₂ : e₁.blockAddr = e.blockAddr := findAlloc_blockAddr st e.blockAddr e₁ hfa
      rw [hsync e₁ h₁ e he h₂, hc]

theorem black_entry_of_sync (st : GcState) (hsync : ColorsSync st) (x : Nat)
    (hb : isBlack st x) (e : GcAllocEntry) (he : e ∈ st.existingAllocations)
    (hx : e.blockAddr = x) : e.color = GcAllocationColor.BLACK := by
  obtain ⟨e₁, he₁, hc₁⟩ := hb
  have h₁ : e₁ ∈ st.existingAllocations := findAlloc_mem st x e₁ he₁
  have h₂ : e₁.blockAddr = x := findAlloc_blockAddr st x e₁ he₁
  rw [hsync e he e₁ h₁ (by rw [hx, h₂]), hc₁]

/-- Every allocation is WHITE after the reset phase. -/
theorem not_isBlack_resetColors (st : GcState) (x : Nat) :
    ¬isBlack (resetColors st) x := by
  rintro ⟨e, he, hc⟩
  have hm := findAlloc_mem (resetColors st) x e he
  obtain ⟨e₀, _, rfl⟩ := List.mem_map.mp hm
  cases hc

/-! ## Mark-phase loop specifications -/

theorem color_eq_black_of_ne_white (c : GcAllocationColor)
    (h : c ≠ GcAllocationColor.WHITE) : c = GcAllocationColor.BLACK := by
  cases c with
  | WHITE => exact absurd rfl h
  | BLACK => rfl

theorem allocTypes_lookup (st : GcState) (b : Nat) :
    lookupAssoc st.view.allocTypes b = (findAlloc st b).map GcAllocEntry.typeId := by
  show lookupAssoc (st.existingAllocations.map _) b = _
  unfold findAlloc
  induction st.existingAllocations with
  | nil => rfl
  | cons e rest ih =>
      by_cases h : e.blockAddr = b <;> simp [lookupAssoc, List.find?_cons, h, ih]

theorem pushIfWhiteTarget_spec (st : GcState) (gray : List Nat) (target : Option Nat)
    (gray' : List Nat) (h : pushIfWhiteTarget st gray target = Except.ok gray') :
    (∀ x ∈ gray', x ∈ gray ∨ target = some x) ∧
    (∀ x ∈ gray, x ∈ gray') ∧
    (∀ x, target = some x → isBlack st x ∨ x ∈ gray') := by
  cases target with
  | none =>
      injection h with h'
      subst h'
      exact ⟨fun x hx => Or.inl hx, fun x hx => hx, fun x hx => by cases hx⟩
  | some t =>
      replace h : (do
          let e ← ofOption (findAlloc st t) "pointer target allocation not found"
          if e.color ≠ GcAllocationColor.WHITE then Except.ok gray
          else Except.ok (t :: gray)) = Except.ok gray' := h
      cases hfa : findAlloc st t with
      | none => rw [hfa] at h; simp [ofOption, Bind.bind, Except.bind] at h
      | some e =>
          rw [hfa] at h
          simp only [ofOption, Bind.bind, Except.bind] at h
          by_cases hc : e.color ≠ GcAllocationColor.WHITE
          · rw [if_pos hc] at h
            injection h with h'
            subst h'
            have hb : isBlack st t := ⟨e, hfa, color_eq_black_of_ne_white e.color hc⟩
            refine ⟨fun x hx => Or.inl hx, fun x hx => hx, ?_⟩
            intro x hx
            injection hx with hx'
            subst hx'
            exact Or.inl hb
          · rw [if_neg hc] at h
            injection h with h'
            subst h'
            refine ⟨?_, ?_, ?_⟩
            · intro x hx
              rcases List.mem_cons.mp hx with h1 | h1
              · exact Or.inr (by rw [h1])
              · exact Or.inl h1
            · intro x hx
              exact List.mem_cons_of_mem _ hx
            · intro x hx
              injection hx with hx'
              subst hx'
              exact Or.inr (List.mem_cons_self _ _)

theorem markContainerItems_spec (st : GcState) :
    ∀ (items : List (Option Nat)) (gray gray' : List Nat),
      markContainerItems st gray items = Except.ok gray' →
      (∀ x ∈ gray', x ∈ gray ∨ some x ∈ items) ∧
      (∀ x ∈ gray, x ∈ gray') ∧
      (∀ x, some x ∈ items → isBlack st x ∨ x ∈ gray') := by
  intro items
  induction items with
  | nil =>
      intro gray gray' h
      injection h with h'
      subst h'
      exact ⟨fun x hx => Or.inl hx, fun x hx => hx, fun x hx => by simp at hx⟩
  | cons t rest ih =>
      intro gray gray' h
      unfold markContainerItems at h
      cases hp : pushIfWhiteTarget st gray t with
      | error e => rw [hp] at h; simp [Bind.bind, Except.bind] at h
      | ok g₁ =>
          rw [hp] at h
          simp only [Bind.bind, Except.bind] at h
          obtain ⟨hp1, hp2, hp3⟩ := pushIfWhiteTarget_spec st gray t g₁ hp
          obtain ⟨hi1, hi2, hi3⟩ := ih g₁ gray' h
          refine ⟨?_, ?_, ?_⟩
          · intro x hx
            rcases hi1 x hx with h1 | h1
            · rcases hp1 x h1 with h2 | h2
              · exact Or.inl h2
              · exact Or.inr (by rw [← h2]; exact List.mem_cons_self _ _)
            · exact Or.inr (List.mem_cons_of_mem _ h1)
          · intro x hx
            exact hi2 x (hp2 x hx)
          · intro x hx
            rcases List.mem_cons.mp hx with h1 | h1
            · rcases hp3 x h1.symm with h2 | h2
              · exact Or.inl h2
              · exact Or.inr (hi2 x h2)
            · exact hi3 x h1

theorem markPtrFields_spec (st : GcState) (payload : Nat) :
    ∀ (offs : List Nat) (gray gray' : List Nat),
      markPtrFields st gray payload offs = Except.ok gray' →
      (∀ x ∈ gray', x ∈ gray ∨ ∃ off ∈ offs, ∃ rt,
        lookupNode st (payload + off) = some ⟨rt, GcNodeVal.ptrNode (some x)⟩) ∧
      (∀ x ∈ gray, x ∈ gray') ∧
      (∀ off ∈ offs, ∀ rt x,
        lookupNode st (payload + off) = some ⟨rt, GcNodeVal.ptrNode (some x)⟩ →
        isBlack st x ∨ x ∈ gray') := by
  intro offs
  induction offs with
  | nil =>
      intro gray gray' h
      injection h with h'
      subst h'
      exact ⟨fun x hx => Or.inl hx, fun x hx => hx, fun off hoff => by simp at hoff⟩
  | cons off rest ih =>
      intro gray gray' h
      unfold markPtrFields at h
      cases hn : lookupNode st (payload + off) with
      | none => rw [hn] at h; simp [ofOption, Bind.bind, Except.bind] at h
      | some n =>
          rw [hn] at h
          simp only [ofOption, Bind.bind, Except.bind] at h
          obtain ⟨root, val⟩ := n
          cases val with
          | containerNode items => simp at h
          | ptrNode target =>
              simp only at h
              cases hp : pushIfWhiteTarget st gray target with
              | error e => rw [hp] at h; simp [Bind.bind, Except.bind] at h
              | ok g₁ =>
                  rw [hp] at h
                  simp only [Bind.bind, Except.bind] at h
                  obtain ⟨hp1, hp2, hp3⟩ := pushIfWhiteTarget_spec st gray target g₁ hp
                  obtain ⟨hi1, hi2, hi3⟩ := ih g₁ gray' h
                  refine ⟨?_, ?_, ?_⟩
                  · intro x hx
                    rcases hi1 x hx with h1 | h1
                    · rcases hp1 x h1 with h2 | h2
                      · exact Or.inl h2
                      · exact Or.inr ⟨off, List.mem_cons_self _ _, root, by rw [hn, h2]⟩
                    · obtain ⟨off', hoff', rt', hlook'⟩ := h1
                      exact Or.inr ⟨off', List.mem_cons_of_mem _ hoff', rt', hlook'⟩
                  · intro x hx
                    exact hi2 x (hp2 x hx)
                  · intro off' hoff' rt x hlook
                    rcases List.mem_cons.mp hoff' with h1 | h1
                    · subst h1
                      rw [hn] at hlook
                      have ht : target = some x := by
                        injection hlook with hl
                        injection hl with h1 h2
                        injection h2
                      rcases hp3 x ht with h2 | h2
                      · exact Or.inl h2
                      · exact Or.inr (hi2 x h2)
                    · exact hi3 off' h1 rt x hlook

theorem markContainerFields_spec (st : GcState) (payload : Nat) :
    ∀ (offs : List Nat) (gray gray' : List Nat),
      markContainerFields st gray payload offs = Except.ok gray' →
      (∀ x ∈ gray', x ∈ gray ∨ ∃ off ∈ offs, ∃ rt items,
        lookupNode st (payload + off) = some ⟨rt, GcNodeVal.containerNode items⟩ ∧
        some x ∈ items) ∧
      (∀ x ∈ gray, x ∈ gray') ∧
      (∀ off ∈ offs, ∀ rt items,
        lookupNode st (payload + off) = some ⟨rt, GcNodeVal.containerNode items⟩ →
        ∀ x, some x ∈ items → isBlack st x ∨ x ∈ gray') := by
  intro offs
  induction offs with
  | nil =>
      intro gray gray' h
      injection h with h'
      subst h'
      exact ⟨fun x hx => Or.inl hx, fun x hx => hx, fun off hoff => by simp at hoff⟩
  | cons off rest ih =>
      intro gray gray' h
      unfold markContainerFields at h
      cases hn : lookupNode st (payload + off) with
      | none => rw [hn] at h; simp [ofOption, Bind.bind, Except.bind] at h
      | some n =>
          rw [hn] at h
          simp only [ofOption, Bind.bind, Except.bind] at h
          obtain ⟨root, val⟩ := n
          cases val with
          | ptrNode target => simp at h
          | containerNode items =>
              simp only at h
              cases hm : markContainerItems st gray items with
              | error e => rw [hm] at h; simp [Bind.bind, Except.bind] at h
              | ok g₁ =>
                  rw [hm] at h
                  simp only [Bind.bind, Except.bind] at h
                  obtain ⟨hm1, hm2, hm3⟩ := markContainerItems_spec st items gray g₁ hm
                  obtain ⟨hi1, hi2, hi3⟩ := ih g₁ gray' h
                  refine ⟨?_, ?_, ?_⟩
                  · intro x hx
                    rcases hi1 x hx with h1 | h1
                    · rcases hm1 x h1 with h2 | h2
                      · exact Or.inl h2
                      · exact Or.inr ⟨off, List.mem_cons_self _ _, root, items, by rw [hn], h2⟩
                    · obtain ⟨off', hoff', rt', items', hlook', hx'⟩ := h1
                      exact Or.inr ⟨off', List.mem_cons_of_mem _ hoff', rt', items', hlook', hx'⟩
                  · intro x hx
                    exact hi2 x (hm2 x hx)
                  · intro off' hoff' rt items' hlook x hx
                    rcases List.mem_cons.mp hoff' with h1 | h1
                    · subst h1
                      rw [hn] at hlook
                      have hit : items = items' := by
                        injection hlook with hl
                        injection hl with h1 h2
                        injection h2
                      rcases hm3 x (by rw [hit]; exact hx) with h2 | h2
                      · exact Or.inl h2
                      · exact Or.inr (hi2 x h2)
                    · exact hi3 off' h1 rt items' hlook x hx

/-- Processing one allocation during the mark phase: the state change
is exactly coloring `b` BLACK; the gray buffer only grows, what it
gains are tracing-edge targets of `b`, and afterwards every
tracing-edge target of `b` is BLACK or in the gray buffer. -/
theorem markAllocation_spec (st : GcState) (gray : List Nat) (b : Nat)
    (st' : GcState) (gray' : List Nat)
    (h : markAllocationAndProcessFields st gray b = Except.ok (st', gray')) :
    st' = setColor st b GcAllocationColor.BLACK ∧
    (∃ e, findAlloc st b = some e) ∧
    (∀ x ∈ gray, x ∈ gray') ∧
    (∀ x ∈ gray', x ∈ gray ∨ EdgeTo st.view b x) ∧
    (∀ t, EdgeTo st.view b t → isBlack st' t ∨ t ∈ gray') := by
  unfold markAllocationAndProcessFields at h
  cases he : findAlloc st b with
  | none => rw [he] at h; simp [ofOption, Bind.bind, Except.bind] at h
  | some e =>
      rw [he] at h
      simp only [ofOption, Bind.bind, Except.bind] at h
      rw [show getTypeInfo (setColor st b GcAllocationColor.BLACK) e.typeId =
        getTypeInfo st e.typeId from getTypeInfo_setColor st b _ e.typeId] at h
      cases hfr : (getTypeInfo st e.typeId).bAllGcNodeFieldOffsetsInitialized with
      | false => simp [hfr] at h
      | true =>
          have hcond : ¬((getTypeInfo st e.typeId).bAllGcNodeFieldOffsetsInitialized
              = false) := by
            rw [hfr]
            simp
          rw [if_neg hcond] at h
          cases hg1 : markPtrFields (setColor st b GcAllocationColor.BLACK) gray
              (payloadAddr b) (getTypeInfo st e.typeId).vGcPtrFieldOffsets with
          | error er => rw [hg1] at h; simp [Bind.bind, Except.bind] at h
          | ok g₁ =>
              rw [hg1] at h
              simp only [Bind.bind, Except.bind] at h
              cases hg2 : markContainerFields (setColor st b GcAllocationColor.BLACK) g₁
                  (payloadAddr b) (getTypeInfo st e.typeId).vGcContainerFieldOffsets with
              | error er => rw [hg2] at h; simp [Bind.bind, Except.bind] at h
              | ok g₂ =>
                  rw [hg2] at h
                  simp only [Bind.bind, Except.bind] at h
                  injection h with h1
                  rw [Prod.mk.injEq] at h1
                  obtain ⟨hs, hg⟩ := h1
                  subst hs
                  subst hg
                  obtain ⟨hpf1, hpf2, hpf3⟩ :=
                    markPtrFields_spec (setColor st b GcAllocationColor.BLACK)
                      (payloadAddr b) _ gray g₁ hg1
                  obtain ⟨hcf1, hcf2, hcf3⟩ :=
                    markContainerFields_spec (setColor st b GcAllocationColor.BLACK)
                      (payloadAddr b) _ g₁ g₂ hg2
                  have hnodes : ∀ x, lookupNode (setColor st b GcAllocationColor.BLACK) x =
                      lookupAssoc st.view.nodes x :=
                    fun x => rfl
                  have hat : lookupAssoc st.view.allocTypes b = some e.typeId := by
                    rw [allocTypes_lookup, he]
                    rfl
                  have hti : getTypeInfoV st.view e.typeId = getTypeInfo st e.typeId := rfl
                  refine ⟨rfl, ⟨e, rfl⟩, ?_, ?_, ?_⟩
                  · intro x hx
                    exact hcf2 x (hpf2 x hx)
                  · intro x hx
                    rcases hcf1 x hx with h1 | h1
                    · rcases hpf1 x h1 with h2 | h2
                      · exact Or.inl h2
                      · obtain ⟨off, hoff, rt, hlook⟩ := h2
                        refine Or.inr (Or.inl ⟨e.typeId, off, rt, hat, ?_, ?_⟩)
                        · rw [hti]
                          exact hoff
                        · rw [← hnodes]
                          exact hlook
                    · obtain ⟨off, hoff, rt, items, hlook, hxit⟩ := h1
                      refine Or.inr (Or.inr ⟨e.typeId, off, rt, items, hat, ?_, ?_, hxit⟩)
                      · rw [hti]
                        exact hoff
                      · rw [← hnodes]
                        exact hlook
                  · intro t ht
                    rcases ht with ⟨tid, off, rt, hat2, hoff, hlook⟩ |
                        ⟨tid, off, rt, items, hat2, hoff, hlook, hxit⟩
                    · have htid : tid = e.typeId := by
                        rw [hat] at hat2
                        injection hat2 with hv
                        exact hv.symm
                      subst htid
                      rcases hpf3 off (by rw [← hti]; exact hoff) rt t
                          (by rw [hnodes]; exact hlook) with h1 | h1
                      · exact Or.inl h1
                      · exact Or.inr (hcf2 t h1)
                    · have htid : tid = e.typeId := by
                        rw [hat] at hat2
                        injection hat2 with hv
                        exact hv.symm
                      subst htid
                      exact hcf3 off (by rw [← hti]; exact hoff) rt items
                        (by rw [hnodes]; exact hlook) t hxit

/-- A tracing edge out of a reachable allocation reaches a reachable
allocation. -/
theorem reachable_of_edge (v : GcView) (a t : Nat) (ha : ReachableV v a)
    (he : EdgeTo v a t) : ReachableV v t := by
  rcases he with ⟨tid, off, rt, hat, hoff, hlook⟩ |
      ⟨tid, off, rt, items, hat, hoff, hlook, hxit⟩
  · exact ReachableV.fieldPtr ha hat hoff hlook
  · exact ReachableV.fieldContainer ha hat hoff hlook hxit

/-- One step of the gray-buffer drain preserves the mark invariant,
never whitens an allocation, blackens the popped allocation and keeps
every element of the popped buffer in the new buffer. -/
theorem markInv_step (v : GcView) (st : GcState) (rest : List Nat) (b : Nat)
    (st' : GcState) (gray' : List Nat)
    (hinv : MarkInv v st (b :: rest))
    (h : markAllocationAndProcessFields st rest b = Except.ok (st', gray')) :
    MarkInv v st' gray' ∧ (∀ x, isBlack st x → isBlack st' x) ∧ isBlack st' b ∧
    (∀ x ∈ rest, x ∈ gray') := by
  obtain ⟨hview, hsync, hblack, hgray, hclosure⟩ := hinv
  obtain ⟨hs, ⟨e, he⟩, hg, hnew, hedge⟩ := markAllocation_spec st rest b st' gray' h
  rw [hview] at hnew hedge
  subst hs
  have hreach_b : ReachableV v b := hgray b (List.mem_cons_self _ _)
  have hmono : ∀ x, isBlack st x → isBlack (setColor st b GcAllocationColor.BLACK) x :=
    fun x hx => isBlack_mono_setColor st b x hx
  have hbb : isBlack (setColor st b GcAllocationColor.BLACK) b :=
    isBlack_setColor_self st b e he
  refine ⟨⟨(view_setColor st b _).trans hview, colorsSync_setColor st b _ hsync,
    ?_, ?_, ?_⟩, hmono, hbb, hg⟩
  · intro x hx
    rcases isBlack_setColor_inv st b x hx with h1 | h1
    · exact hblack x h1
    · rw [h1]
      exact hreach_b
  · intro x hx
    rcases hnew x hx with h1 | h1
    · exact hgray x (List.mem_cons_of_mem _ h1)
    · exact reachable_of_edge v b x hreach_b h1
  · intro a ha t het
    rcases isBlack_setColor_inv st b a ha with h1 | h1
    · rcases hclosure a h1 t het with h2 | h2
      · exact Or.inl (hmono t h2)
      · rcases List.mem_cons.mp h2 with h3 | h3
        · rw [h3]
          exact Or.inl hbb
        · exact Or.inr (hg t h3)
    · rw [h1] at het
      exact hedge t het

/-- Draining the gray buffer preserves the mark invariant, never
whitens an allocation, and blackens every allocation that was in the
buffer. -/
theorem drainGray_inv (v : GcView) :
    ∀ (fuel : Nat) (st : GcState) (gray : List Nat) (st' : GcState),
      MarkInv v st gray → drainGray fuel st gray = Except.ok st' →
      MarkInv v st' [] ∧ (∀ x, isBlack st x → isBlack st' x) ∧
      (∀ x ∈ gray, isBlack st' x) := by
  intro fuel
  induction fuel with
  | zero =>
      intro st gray st' _ h
      simp [drainGray] at h
  | succ fuel ih =>
      intro st gray st' hinv h
      cases gray with
      | nil =>
          injection h with h'
          subst h'
          exact ⟨hinv, fun x hx => hx, fun x hx => by simp at hx⟩
      | cons b rest =>
          replace h : (do
              let r ← markAllocationAndProcessFields st rest b
              drainGray fuel r.1 r.2) = Except.ok st' := h
          cases hm : markAllocationAndProcessFields st rest b with
          | error er => rw [hm] at h; simp [Bind.bind, Except.bind] at h
          | ok p =>
              rw [hm] at h
              simp only [Bind.bind, Except.bind] at h
              obtain ⟨hinv₁, hmono₁, hbb, hrest⟩ :=
                markInv_step v st rest b p.1 p.2 hinv hm
              obtain ⟨hinv₂, hmono₂, hgray₂⟩ := ih p.1 p.2 st' hinv₁ h
              refine ⟨hinv₂, fun x hx => hmono₂ x (hmono₁ x hx), ?_⟩
              intro x hx
              rcases List.mem_cons.mp hx with h1 | h1
              · rw [h1]
                exact hmono₂ b hbb
              · exact hgray₂ x (hrest x h1)

/-- Marking from the root GcPtr nodes preserves the mark invariant,
never whitens an allocation, and blackens the target of every
non-empty root pointer in the processed list. -/
theorem rootPtrLoop_inv (v : GcView) (fuel : Nat) :
    ∀ (roots : List Nat) (st : GcState) (st' : GcState),
      MarkInv v st [] → (∀ r ∈ roots, r ∈ v.ptrRoots) →
      rootPtrLoop fuel st roots = Except.ok st' →
      MarkInv v st' [] ∧ (∀ x, isBlack st x → isBlack st' x) ∧
      (∀ r ∈ roots, ∀ rt t,
        lookupAssoc v.nodes r = some ⟨rt, GcNodeVal.ptrNode (some t)⟩ →
        isBlack st' t) := by
  intro roots
  induction roots with
  | nil =>
      intro st st' hinv _ h
      injection h with h'
      subst h'
      exact ⟨hinv, fun x hx => hx, fun r hr => by simp at hr⟩
  | cons r rest ih =>
      intro st st' hinv hroots h
      have hview := hinv.1
      have hnodes : lookupNode st r = lookupAssoc v.nodes r := by
        show lookupAssoc st.nodes r = _
        rw [show st.nodes = v.nodes from congrArg GcView.nodes hview]
      unfold rootPtrLoop at h
      cases hn : lookupNode st r with
      | none => rw [hn] at h; simp [ofOption, Bind.bind, Except.bind] at h
      | some n =>
          rw [hn] at h
          simp only [ofOption, Bind.bind, Except.bind] at h
          obtain ⟨root, val⟩ := n
          cases val with
          | containerNode items => simp at h
          | ptrNode target =>
              cases target with
              | none =>
                  simp only at h
                  obtain ⟨hinv', hmono', hcov'⟩ :=
                    ih st st' hinv (fun x hx => hroots x (List.mem_cons_of_mem _ hx)) h
                  refine ⟨hinv', hmono', ?_⟩
                  intro r' hr' rt t hlook
                  rcases List.mem_cons.mp hr' with h1 | h1
                  · subst h1
                    rw [← hnodes, hn] at hlook
                    injection hlook with hl
                    injection hl with h2 h3
                    cases h3
                  · exact hcov' r' h1 rt t hlook
              | some bb =>
                  simp only at h
                  cases hm : markAllocationAndProcessFields st [] bb with
                  | error er => rw [hm] at h; simp [Bind.bind, Except.bind] at h
                  | ok p =>
                      rw [hm] at h
                      simp only [Bind.bind, Except.bind] at h
                      have hreach : ReachableV v bb :=
                        ReachableV.rootPtr (hroots r (List.mem_cons_self _ _))
                          (by rw [← hnodes]; exact hn)
                      have hinv1 : MarkInv v st [bb] := by
                        obtain ⟨h1, h2, h3, h4, h5⟩ := hinv
                        refine ⟨h1, h2, h3, ?_, ?_⟩
                        · intro x hx
                          rcases List.mem_cons.mp hx with hx1 | hx1
                          · rw [hx1]
                            exact hreach
                          · simp at hx1
                        · intro a ha t het
                          rcases h5 a ha t het with hh | hh
                          · exact Or.inl hh
                          · simp at hh
                      obtain ⟨hinv₂, hmono₂, hbb, _⟩ :=
                        markInv_step v st [] bb p.1 p.2 hinv1 hm
                      cases hd : drainGray fuel p.1 p.2 with
                      | error er => rw [hd] at h; simp [Bind.bind, Except.bind] at h
                      | ok st₂ =>
                          rw [hd] at h
                          simp only [Bind.bind, Except.bind] at h
                          obtain ⟨hinv₃, hmono₃, _⟩ :=
                            drainGray_inv v fuel p.1 p.2 st₂ hinv₂ hd
                          obtain ⟨hinv₄, hmono₄, hcov₄⟩ :=
                            ih st₂ st' hinv₃
                              (fun x hx => hroots x (List.mem_cons_of_mem _ hx)) h
                          refine ⟨hinv₄, ?_, ?_⟩
                          · intro x hx
                            exact hmono₄ x (hmono₃ x (hmono₂ x hx))
                          · intro r' hr' rt t hlook
                            rcases List.mem_cons.mp hr' with h1 | h1
                            · subst h1
                              rw [← hnodes, hn] at hlook
                              have htb : t = bb := by
                                injection hlook with hl
                                injection hl with h2 h3
                                injection h3 with h4
                                injection h4 with h5
                                exact h5.symm
                              rw [htb]
                              exact hmono₄ bb (hmono₃ bb hbb)
                            · exact hcov₄ r' h1 rt t hlook

/-- Marking from the root GcContainer nodes preserves the mark
invariant, never whitens an allocation, and blackens every allocation
targeted by an item of a root container in the processed list. -/
theorem rootContainerLoop_inv (v : GcView) (fuel : Nat) :
    ∀ (roots : List Nat) (st : GcState) (st' : GcState),
      MarkInv v st [] → (∀ r ∈ roots, r ∈ v.containerRoots) →
      rootContainerLoop fuel st roots = Except.ok st' →
      MarkInv v st' [] ∧ (∀ x, isBlack st x → isBlack st' x) ∧
      (∀ r ∈ roots, ∀ rt items,
        lookupAssoc v.nodes r = some ⟨rt, GcNodeVal.containerNode items⟩ →
        ∀ t, some t ∈ items → isBlack st' t) := by
  intro roots
  induction roots with
  | nil =>
      intro st st' hinv _ h
      injection h with h'
      subst h'
      exact ⟨hinv, fun x hx => hx, fun r hr => by simp at hr⟩
  | cons r rest ih =>
      intro st st' hinv hroots h
      have hview := hinv.1
      have hnodes : lookupNode st r = lookupAssoc v.nodes r := by
        show lookupAssoc st.nodes r = _
        rw [show st.nodes = v.nodes from congrArg GcView.nodes hview]
      unfold rootContainerLoop at h
      cases hn : lookupNode st r with
      | none => rw [hn] at h; simp [ofOption, Bind.bind, Except.bind] at h
      | some n =>
          rw [hn] at h
          simp only [ofOption, Bind.bind, Except.bind] at h
          obtain ⟨root, val⟩ := n
          cases val with
          | ptrNode target => simp at h
          | containerNode items =>
              simp only at h
              cases hmi : markContainerItems st [] items with
              | error er => rw [hmi] at h; simp [Bind.bind, Except.bind] at h
              | ok gray₀ =>
                  rw [hmi] at h
                  simp only [Bind.bind, Except.bind] at h
                  obtain ⟨hm1, _, hm3⟩ := markContainerItems_spec st items [] gray₀ hmi
                  have hlookv : lookupAssoc v.nodes r =
                      some ⟨root, GcNodeVal.containerNode items⟩ := by
                    rw [← hnodes]
                    exact hn
                  have hinv0 : MarkInv v st gray₀ := by
                    obtain ⟨h1, h2, h3, h4, h5⟩ := hinv
                    refine ⟨h1, h2, h3, ?_, ?_⟩
                    · intro x hx
                      rcases hm1 x hx with hx1 | hx1
                      · simp at hx1
                      · exact ReachableV.rootContainer
                          (hroots r (List.mem_cons_self _ _)) hlookv hx1
                    · intro a ha t het
                      rcases h5 a ha t het with hh | hh
                      · exact Or.inl hh
                      · simp at hh
                  cases hd : drainGray fuel st gray₀ with
                  | error er => rw [hd] at h; simp [Bind.bind, Except.bind] at h
                  | ok st₂ =>
                      rw [hd] at h
                      simp only [Bind.bind, Except.bind] at h
                      obtain ⟨hinv₂, hmono₂, hgray₂⟩ :=
                        drainGray_inv v fuel st gray₀ st₂ hinv0 hd
                      obtain ⟨hinv₃, hmono₃, hcov₃⟩ :=
                        ih st₂ st' hinv₂
                          (fun x hx => hroots x (List.mem_cons_of_mem _ hx)) h
                      refine ⟨hinv₃, fun x hx => hmono₃ x (hmono₂ x hx), ?_⟩
                      intro r' hr' rt items' hlook t htit
                      rcases List.mem_cons.mp hr' with h1 | h1
                      · subst h1
                        rw [hlookv] at hlook
                        have hit : items = items' := by
                          injection hlook with hl
                          injection hl with h2 h3
                          injection h3
                        rcases hm3 t (by rw [hit]; exact htit) with h2 | h2
                        · exact hmono₃ t (hmono₂ t h2)
                        · exact hmono₃ t (hgray₂ t h2)
                      · exact hcov₃ r' h1 rt items' hlook t htit

/-- The whole mark phase of collectGarbage: starting from the reset
state, after both root loops the BLACK allocations are exactly the
allocations reachable from the root set. -/
theorem markPhase_spec (st : GcState) (fuel : Nat) (st₁ st₂ : GcState)
    (h₁ : rootPtrLoop fuel (resetColors st) (resetColors st).gcPtrRootNodes =
      Except.ok st₁)
    (h₂ : rootContainerLoop fuel st₁ st₁.gcContainerRootNodes = Except.ok st₂) :
    MarkInv st.view st₂ [] ∧
    (∀ x, isBlack st₂ x → ReachableV st.view x) ∧
    (∀ x, ReachableV st.view x → isBlack st₂ x) := by
  set v := st.view with hv
  have hinv₀ : MarkInv v (resetColors st) [] := by
    refine ⟨view_resetColors st, colorsSync_resetColors st, ?_, ?_, ?_⟩
    · intro b hb
      exact absurd hb (not_isBlack_resetColors st b)
    · intro b hb
      simp at hb
    · intro a ha
      exact absurd ha (not_isBlack_resetColors st a)
  have hroots₁ : ∀ r ∈ (resetColors st).gcPtrRootNodes, r ∈ v.ptrRoots :=
    fun r hr => hr
  obtain ⟨hinv₁, _, hcov₁⟩ :=
    rootPtrLoop_inv v fuel (resetColors st).gcPtrRootNodes (resetColors st) st₁
      hinv₀ hroots₁ h₁
  have hroots₂ : ∀ r ∈ st₁.gcContainerRootNodes, r ∈ v.containerRoots := by
    intro r hr
    rw [show st₁.gcContainerRootNodes = v.containerRoots from
      congrArg GcView.containerRoots hinv₁.1] at hr
    exact hr
  obtain ⟨hinv₂, hmono₂, hcov₂⟩ :=
    rootContainerLoop_inv v fuel st₁.gcContainerRootNodes st₁ st₂ hinv₁ hroots₂ h₂
  refine ⟨hinv₂, hinv₂.2.2.1, ?_⟩
  intro x hx
  induction hx with
  | rootPtr hr hlook =>
      rename_i r b rt
      exact hmono₂ b (hcov₁ r hr rt b hlook)
  | rootContainer hr hlook hit =>
      rename_i r b rt items
      have hr' : r ∈ st₁.gcContainerRootNodes := by
        rw [show st₁.gcContainerRootNodes = v.containerRoots from
          congrArg GcView.containerRoots hinv₁.1]
        exact hr
      exact hcov₂ r hr' rt items hlook b hit
  | fieldPtr ha hat hoff hlook iha =>
      rename_i a tid off b rt
      rcases hinv₂.2.2.2.2 a iha b (Or.inl ⟨tid, off, rt, hat, hoff, hlook⟩) with h1 | h1
      · exact h1
      · simp at h1
  | fieldContainer ha hat hoff hlook hit iha =>
      rename_i a tid off b rt items
      rcases hinv₂.2.2.2.2 a iha b
          (Or.inr ⟨tid, off, rt, items, hat, hoff, hlook, hit⟩) with h1 | h1
      · exact h1
      · simp at h1

/-! ## Sweep-phase characterization -/

theorem eraseFirst_not_mem (l : List Nat) (a : Nat) (h : a ∉ l) :
    eraseFirst l a = l := by
  induction l with
  | nil => rfl
  | cons x xs ih =>
      have hxa : ¬x = a := fun hc => h (by rw [hc]; exact List.mem_cons_self _ _)
      simp only [eraseFirst, if_neg hxa]
      rw [ih (fun hc => h (List.mem_cons_of_mem _ hc))]

theorem lookupAssoc_filter_key {α : Type} (q : Nat → Bool) (l : List (Nat × α)) (x : Nat)
    (hx : q x = true) :
    lookupAssoc (l.filter (fun kv => q kv.1)) x = lookupAssoc l x := by
  induction l with
  | nil => rfl
  | cons p rest ih =>
      obtain ⟨k, v⟩ := p
      by_cases hk : k = x
      · subst hk
        simp [List.filter_cons, hx, lookupAssoc, ih]
      · cases hq : q k with
        | true => simp [List.filter_cons, hq, lookupAssoc, hk, ih]
        | false => simp [List.filter_cons, hq, lookupAssoc, hk, ih]

/-- The root-removal fold inside destroyAllocationNodes only modifies
the two root sets. -/
theorem destroyRootsFold_fields :
    ∀ (dying : List (Nat × GcNode)) (s : GcState),
      (dying.foldl (fun s kv =>
        if kv.2.bIsRootNode then
          match kv.2.val with
          | GcNodeVal.ptrNode _ =>
              { s with gcPtrRootNodes := eraseFirst s.gcPtrRootNodes kv.1 }
          | GcNodeVal.containerNode _ =>
              { s with gcContainerRootNodes := eraseFirst s.gcContainerRootNodes kv.1 }
        else s) s).existingAllocations = s.existingAllocations ∧
      (dying.foldl (fun s kv =>
        if kv.2.bIsRootNode then
          match kv.2.val with
          | GcNodeVal.ptrNode _ =>
              { s with gcPtrRootNodes := eraseFirst s.gcPtrRootNodes kv.1 }
          | GcNodeVal.containerNode _ =>
              { s with gcContainerRootNodes := eraseFirst s.gcContainerRootNodes kv.1 }
        else s) s).nodes = s.nodes ∧
      (dying.foldl (fun s kv =>
        if kv.2.bIsRootNode then
          match kv.2.val with
          | GcNodeVal.ptrNode _ =>
              { s with gcPtrRootNodes := eraseFirst s.gcPtrRootNodes kv.1 }
          | GcNodeVal.containerNode _ =>
              { s with gcContainerRootNodes := eraseFirst s.gcContainerRootNodes kv.1 }
        else s) s).typeInfos = s.typeInfos ∧
      (dying.foldl (fun s kv =>
        if kv.2.bIsRootNode then
          match kv.2.val with
          | GcNodeVal.ptrNode _ =>
              { s with gcPtrRootNodes := eraseFirst s.gcPtrRootNodes kv.1 }
          | GcNodeVal.containerNode _ =>
              { s with gcContainerRootNodes := eraseFirst s.gcContainerRootNodes kv.1 }
        else s) s).allocationInfoRefs = s.allocationInfoRefs ∧
      (dying.foldl (fun s kv =>
        if kv.2.bIsRootNode then
          match kv.2.val with
          | GcNodeVal.ptrNode _ =>
              { s with gcPtrRootNodes := eraseFirst s.gcPtrRootNodes kv.1 }
          | GcNodeVal.containerNode _ =>
              { s with gcContainerRootNodes := eraseFirst s.gcContainerRootNodes kv.1 }
        else s) s).currentlyConstructingObjects = s.currentlyConstructingObjects := by
  intro dying
  induction dying with
  | nil => intro s; exact ⟨rfl, rfl, rfl, rfl, rfl⟩
  | cons kv rest ih =>
      intro s
      obtain ⟨k, root, val⟩ := kv
      cases root <;> cases val <;>
        simp only [List.foldl_cons] <;> exact ih _

/-- The root-removal fold leaves both root sets untouched when none of
the dying nodes' addresses occurs in them. -/
theorem destroyRootsFold_roots :
    ∀ (dying : List (Nat × GcNode)) (s : GcState),
      (∀ kv ∈ dying, kv.1 ∉ s.gcPtrRootNodes) →
      (∀ kv ∈ dying, kv.1 ∉ s.gcContainerRootNodes) →
      (dying.foldl (fun s kv =>
        if kv.2.bIsRootNode then
          match kv.2.val with
          | GcNodeVal.ptrNode _ =>
              { s with gcPtrRootNodes := eraseFirst s.gcPtrRootNodes kv.1 }
          | GcNodeVal.containerNode _ =>
              { s with gcContainerRootNodes := eraseFirst s.gcContainerRootNodes kv.1 }
        else s) s).gcPtrRootNodes = s.gcPtrRootNodes ∧
      (dying.foldl (fun s kv =>
        if kv.2.bIsRootNode then
          match kv.2.val with
          | GcNodeVal.ptrNode _ =>
              { s with gcPtrRootNodes := eraseFirst s.gcPtrRootNodes kv.1 }
          | GcNodeVal.containerNode _ =>
              { s with gcContainerRootNodes := eraseFirst s.gcContainerRootNodes kv.1 }
        else s) s).gcContainerRootNodes = s.gcContainerRootNodes := by
  intro dying
  induction dying with
  | nil => intro s _ _; exact ⟨rfl, rfl⟩
  | cons kv rest ih =>
      intro s hp hc
      obtain ⟨k, root, val⟩ := kv
      have hpk : k ∉ s.gcPtrRootNodes := hp (k, ⟨root, val⟩) (List.mem_cons_self _ _)
      have hck : k ∉ s.gcContainerRootNodes := hc (k, ⟨root, val⟩) (List.mem_cons_self _ _)
      have hstep : (if (⟨root, val⟩ : GcNode).bIsRootNode then
          match (⟨root, val⟩ : GcNode).val with
          | GcNodeVal.ptrNode _ =>
              { s with gcPtrRootNodes := eraseFirst s.gcPtrRootNodes k }
          | GcNodeVal.containerNode _ =>
              { s with gcContainerRootNodes := eraseFirst s.gcContainerRootNodes k }
        else s) = s := by
        cases root with
        | false => rfl
        | true =>
            cases val with
            | ptrNode t =>
                show ({ s with gcPtrRootNodes := eraseFirst s.gcPtrRootNodes k }) = s
                rw [eraseFirst_not_mem _ _ hpk]
            | containerNode items =>
                show ({ s with gcContainerRootNodes := eraseFirst s.gcContainerRootNodes k }) = s
                rw [eraseFirst_not_mem _ _ hck]
      simp only [List.foldl_cons, hstep]
      exact ih s (fun kv' hkv' => hp kv' (List.mem_cons_of_mem _ hkv'))
        (fun kv' hkv' => hc kv' (List.mem_cons_of_mem _ hkv'))

/-- Destroying one freed allocation: only its payload-range nodes (and
at most root-set entries at those nodes' addresses) disappear. -/
theorem destroyAllocationNodes_spec (s : GcState) (f : GcAllocEntry) :
    (destroyAllocationNodes s f).existingAllocations = s.existingAllocations ∧
    (destroyAllocationNodes s f).typeInfos = s.typeInfos ∧
    (destroyAllocationNodes s f).allocationInfoRefs = s.allocationInfoRefs ∧
    (destroyAllocationNodes s f).currentlyConstructingObjects =
      s.currentlyConstructingObjects ∧
    (∀ x, ¬(payloadAddr f.blockAddr ≤ x ∧
        x < payloadAddr f.blockAddr + (getTypeInfo s f.typeId).iTypeSize) →
      lookupAssoc (destroyAllocationNodes s f).nodes x = lookupAssoc s.nodes x) ∧
    ((∀ r ∈ s.gcPtrRootNodes, ¬(payloadAddr f.blockAddr ≤ r ∧
        r < payloadAddr f.blockAddr + (getTypeInfo s f.typeId).iTypeSize)) →
     (∀ r ∈ s.gcContainerRootNodes, ¬(payloadAddr f.blockAddr ≤ r ∧
        r < payloadAddr f.blockAddr + (getTypeInfo s f.typeId).iTypeSize)) →
     (destroyAllocationNodes s f).gcPtrRootNodes = s.gcPtrRootNodes ∧
     (destroyAllocationNodes s f).gcContainerRootNodes = s.gcContainerRootNodes) := by
  have hfields := destroyRootsFold_fields
    (s.nodes.filter (fun kv => payloadAddr f.blockAddr ≤ kv.1 ∧
      kv.1 < payloadAddr f.blockAddr + (getTypeInfo s f.typeId).iTypeSize))
    { s with nodes := s.nodes.filter (fun kv => ¬(payloadAddr f.blockAddr ≤ kv.1 ∧
        kv.1 < payloadAddr f.blockAddr + (getTypeInfo s f.typeId).iTypeSize)) }
  refine ⟨hfields.1, hfields.2.2.1, hfields.2.2.2.1, hfields.2.2.2.2, ?_, ?_⟩
  · intro x hx
    have hnodes := hfields.2.1
    show lookupAssoc (destroyAllocationNodes s f).nodes x = _
    rw [show (destroyAllocationNodes s f).nodes =
      s.nodes.filter (fun kv => ¬(payloadAddr f.blockAddr ≤ kv.1 ∧
        kv.1 < payloadAddr f.blockAddr + (getTypeInfo s f.typeId).iTypeSize)) from hnodes]
    exact lookupAssoc_filter_key
      (fun a => decide ¬(payloadAddr f.blockAddr ≤ a ∧
        a < payloadAddr f.blockAddr + (getTypeInfo s f.typeId).iTypeSize))
      s.nodes x (decide_eq_true hx)
  · intro hp hc
    have hdying : ∀ kv ∈ s.nodes.filter (fun kv => payloadAddr f.blockAddr ≤ kv.1 ∧
        kv.1 < payloadAddr f.blockAddr + (getTypeInfo s f.typeId).iTypeSize),
        payloadAddr f.blockAddr ≤ kv.1 ∧
        kv.1 < payloadAddr f.blockAddr + (getTypeInfo s f.typeId).iTypeSize := by
      intro kv hkv
      have := List.of_mem_filter hkv
      exact of_decide_eq_true this
    exact destroyRootsFold_roots _ _
      (fun kv hkv hmem => hp kv.1 hmem (hdying kv hkv))
      (fun kv hkv hmem => hc kv.1 hmem (hdying kv hkv))

/-- The sweep loop over the freed allocations: the allocation list,
the type records and the constructing stack are untouched; node lookups
outside every freed payload range are preserved; and when no root-set
member lies in a freed payload range, both root sets are untouched. -/
theorem sweepFoldFn_spec :
    ∀ (freed : List GcAllocEntry) (s : GcState),
      (sweepFoldFn freed s).existingAllocations = s.existingAllocations ∧
      (sweepFoldFn freed s).typeInfos = s.typeInfos ∧
      (sweepFoldFn freed s).currentlyConstructingObjects =
        s.currentlyConstructingObjects ∧
      (∀ x, (∀ f ∈ freed, ¬(payloadAddr f.blockAddr ≤ x ∧
          x < payloadAddr f.blockAddr + (getTypeInfo s f.typeId).iTypeSize)) →
        lookupAssoc (sweepFoldFn freed s).nodes x = lookupAssoc s.nodes x) ∧
      ((∀ f ∈ freed, ∀ r ∈ s.gcPtrRootNodes, ¬(payloadAddr f.blockAddr ≤ r ∧
          r < payloadAddr f.blockAddr + (getTypeInfo s f.typeId).iTypeSize)) →
       (∀ f ∈ freed, ∀ r ∈ s.gcContainerRootNodes, ¬(payloadAddr f.blockAddr ≤ r ∧
          r < payloadAddr f.blockAddr + (getTypeInfo s f.typeId).iTypeSize)) →
       (sweepFoldFn freed s).gcPtrRootNodes = s.gcPtrRootNodes ∧
       (sweepFoldFn freed s).gcContainerRootNodes = s.gcContainerRootNodes) := by
  intro freed
  induction freed with
  | nil => intro s; exact ⟨rfl, rfl, rfl, fun x _ => rfl, fun _ _ => ⟨rfl, rfl⟩⟩
  | cons f rest ih =>
      intro s
      set s₀ := { s with allocationInfoRefs := eraseAssoc s.allocationInfoRefs f.blockAddr }
        with hs₀
      have hone := destroyAllocationNodes_spec s₀ f
      have hstep : sweepFoldFn (f :: rest) s = sweepFoldFn rest (destroyAllocationNodes s₀ f) :=
        rfl
      have hrec := ih (destroyAllocationNodes s₀ f)
      have hti : (destroyAllocationNodes s₀ f).typeInfos = s.typeInfos := hone.2.1
      refine ⟨?_, ?_, ?_, ?_, ?_⟩
      · rw [hstep, hrec.1, hone.1]
      · rw [hstep, hrec.2.1, hti]
      · rw [hstep, hrec.2.2.1, hone.2.2.2.1]
      · intro x hx
        rw [hstep]
        have hgt : ∀ g ∈ rest, getTypeInfo (destroyAllocationNodes s₀ f) g.typeId =
            getTypeInfo s g.typeId := by
          intro g _
          unfold getTypeInfo
          rw [show (destroyAllocationNodes s₀ f).typeInfos = s.typeInfos from hti]
        have hrest : ∀ g ∈ rest, ¬(payloadAddr g.blockAddr ≤ x ∧
            x < payloadAddr g.blockAddr +
              (getTypeInfo (destroyAllocationNodes s₀ f) g.typeId).iTypeSize) := by
          intro g hg
          rw [hgt g hg]
          exact hx g (List.mem_cons_of_mem _ hg)
        rw [hrec.2.2.2.1 x hrest]
        have hf : ¬(payloadAddr f.blockAddr ≤ x ∧
            x < payloadAddr f.blockAddr + (getTypeInfo s₀ f.typeId).iTypeSize) := by
          have : getTypeInfo s₀ f.typeId = getTypeInfo s f.typeId := rfl
          rw [this]
          exact hx f (List.mem_cons_self _ _)
        exact hone.2.2.2.2.1 x hf
      · intro hp hc
        rw [hstep]
        have hf0 : getTypeInfo s₀ f.typeId = getTypeInfo s f.typeId := rfl
        have hrootsone := hone.2.2.2.2.2
          (by
            intro r hr
            rw [hf0]
            exact hp f (List.mem_cons_self _ _) r hr)
          (by
            intro r hr
            rw [hf0]
            exact hc f (List.mem_cons_self _ _) r hr)
        have hgt : ∀ g : GcAllocEntry, getTypeInfo (destroyAllocationNodes s₀ f) g.typeId =
            getTypeInfo s g.typeId := by
          intro g
          unfold getTypeInfo
          rw [show (destroyAllocationNodes s₀ f).typeInfos = s.typeInfos from hti]
        have hrec2 := hrec.2.2.2.2
          (by
            intro g hg r hr
            rw [hgt g]
            rw [hrootsone.1] at hr
            exact hp g (List.mem_cons_of_mem _ hg) r hr)
          (by
            intro g hg r hr
            rw [hgt g]
            rw [hrootsone.2] at hr
            exact hc g (List.mem_cons_of_mem _ hg) r hr)
        exact ⟨hrec2.1.trans hrootsone.1, hrec2.2.trans hrootsone.2⟩

/-! ## Address-level well-formedness, extracted -/

theorem getTypeInfo_congr {s₁ s₂ : GcState} (h : s₁.typeInfos = s₂.typeInfos) (tid : Nat) :
    getTypeInfo s₁ tid = getTypeInfo s₂ tid := by
  unfold getTypeInfo
  rw [h]

theorem wf_roots_outside (st : GcState) (hwf : wellFormedB st = true) :
    ∀ r, (r ∈ st.gcPtrRootNodes ∨ r ∈ st.gcContainerRootNodes) →
      ∀ e ∈ st.existingAllocations, ¬(allocLo e ≤ r ∧ r < allocHi st e) := by
  have h₁ : rootsOutsideB st = true := by
    unfold wellFormedB at hwf
    simp [Bool.and_eq_true] at hwf
    exact hwf.1.1
  intro r hr e he
  have hr' : r ∈ st.gcPtrRootNodes ++ st.gcContainerRootNodes := by
    rcases hr with h | h
    · exact List.mem_append_left _ h
    · exact List.mem_append_right _ h
  unfold rootsOutsideB at h₁
  have h₂ := List.all_eq_true.mp h₁ r hr'
  have h₃ := List.all_eq_true.mp h₂ e he
  have h₄ : r < allocLo e ∨ allocHi st e ≤ r := of_decide_eq_true h₃
  omega

theorem pairwiseDisjointB_spec (st : GcState) :
    ∀ l, pairwiseDisjointB st l = true →
      ∀ e ∈ l, ∀ g ∈ l, e.blockAddr ≠ g.blockAddr →
        allocHi st e ≤ allocLo g ∨ allocHi st g ≤ allocLo e := by
  intro l
  induction l with
  | nil => intro _ e he; simp at he
  | cons e₀ rest ih =>
      intro h e he g hg hne
      unfold pairwiseDisjointB at h
      rw [Bool.and_eq_true] at h
      obtain ⟨hall, hrest⟩ := h
      rcases List.mem_cons.mp he with he1 | he1 <;>
        rcases List.mem_cons.mp hg with hg1 | hg1
      · subst he1
        subst hg1
        exact absurd rfl hne
      · subst he1
        have := of_decide_eq_true (List.all_eq_true.mp hall g hg1)
        exact this.2
      · subst hg1
        have := of_decide_eq_true (List.all_eq_true.mp hall e he1)
        rcases this.2 with h2 | h2
        · exact Or.inr h2
        · exact Or.inl h2
      · exact ih hrest e he1 g hg1 hne

theorem wf_disjoint (st : GcState) (hwf : wellFormedB st = true) :
    ∀ e ∈ st.existingAllocations, ∀ g ∈ st.existingAllocations,
      e.blockAddr ≠ g.blockAddr →
      allocHi st e ≤ allocLo g ∨ allocHi st g ≤ allocLo e := by
  have h₁ : pairwiseDisjointB st st.existingAllocations = true := by
    unfold wellFormedB at hwf
    simp [Bool.and_eq_true] at hwf
    exact hwf.1.2
  exact pairwiseDisjointB_spec st st.existingAllocations h₁

theorem wf_offsets (st : GcState) (hwf : wellFormedB st = true) :
    ∀ e ∈ st.existingAllocations,
      (∀ off ∈ (getTypeInfo st e.typeId).vGcPtrFieldOffsets,
        off < (getTypeInfo st e.typeId).iTypeSize) ∧
      (∀ off ∈ (getTypeInfo st e.typeId).vGcContainerFieldOffsets,
        off < (getTypeInfo st e.typeId).iTypeSize) := by
  have h₁ : offsetsInRangeB st = true := by
    unfold wellFormedB at hwf
    simp [Bool.and_eq_true] at hwf
    exact hwf.2
  intro e he
  unfold offsetsInRangeB at h₁
  have h₂ := List.all_eq_true.mp h₁ e he
  rw [Bool.and_eq_true] at h₂
  constructor
  · intro off hoff
    exact of_decide_eq_true (List.all_eq_true.mp h₂.1 off hoff)
  · intro off hoff
    exact of_decide_eq_true (List.all_eq_true.mp h₂.2 off hoff)

theorem pairs_mem_exists (l : List GcAllocEntry) (a tid : Nat)
    (h : (a, tid) ∈ l.map (fun e => (e.blockAddr, e.typeId))) :
    ∃ e ∈ l, e.blockAddr = a ∧ e.typeId = tid := by
  obtain ⟨e, he, heq⟩ := List.mem_map.mp h
  refine ⟨e, he, ?_, ?_⟩
  · exact congrArg Prod.fst heq
  · exact congrArg Prod.snd heq

theorem allocTypes_filter_lookup (l : List GcAllocEntry) (a : Nat)
    (hkeep : ∀ e ∈ l, e.blockAddr = a → ¬(e.color = GcAllocationColor.WHITE)) :
    lookupAssoc ((l.filter (fun e => ¬(e.color = GcAllocationColor.WHITE))).map
      (fun e => (e.blockAddr, e.typeId))) a =
    lookupAssoc (l.map (fun e => (e.blockAddr, e.typeId))) a := by
  induction l with
  | nil => rfl
  | cons e rest ih =>
      have ih' := ih (fun e' he' => hkeep e' (List.mem_cons_of_mem _ he'))
      simp only [decide_not] at ih'
      by_cases ha : e.blockAddr = a
      · have hk : ¬(e.color = GcAllocationColor.WHITE) :=
          hkeep e (List.mem_cons_self _ _) ha
        simp [List.filter_cons, hk, lookupAssoc, ha, decide_not]
      · by_cases hk : e.color = GcAllocationColor.WHITE
        · simp [List.filter_cons, hk, lookupAssoc, ha, decide_not, ih']
        · simp [List.filter_cons, hk, lookupAssoc, ha, decide_not, ih']

/-! ## Reachability survives the sweep -/

theorem sweep_reachable_transfer (st st₂ : GcState)
    (hview : st₂.view = st.view)
    (hsync : ColorsSync st₂)
    (hcomplete : ∀ x, ReachableV st.view x → isBlack st₂ x)
    (hwf : wellFormedB st = true) :
    ∀ x, ReachableV st.view x → ReachableV (collectSweep st₂).1.view x := by
  have hti₂ : st₂.typeInfos = st.typeInfos := congrArg GcView.typeInfos hview
  have hnodes₂ : st₂.nodes = st.nodes := congrArg GcView.nodes hview
  have hpr₂ : st₂.gcPtrRootNodes = st.gcPtrRootNodes := congrArg GcView.ptrRoots hview
  have hcr₂ : st₂.gcContainerRootNodes = st.gcContainerRootNodes :=
    congrArg GcView.containerRoots hview
  have hpairs₂ : st₂.existingAllocations.map (fun e => (e.blockAddr, e.typeId)) =
      st.existingAllocations.map (fun e => (e.blockAddr, e.typeId)) :=
    congrArg GcView.allocTypes hview
  have hfirst : (collectSweep st₂).1 = sweepFoldFn (sweepFreed st₂) (sweepKept st₂) := rfl
  have hsw := sweepFoldFn_spec (sweepFreed st₂) (sweepKept st₂)
  have hfreedInfo : ∀ f ∈ sweepFreed st₂,
      ∃ ef ∈ st.existingAllocations,
        ef.blockAddr = f.blockAddr ∧ ef.typeId = f.typeId ∧
        f ∈ st₂.existingAllocations ∧ f.color = GcAllocationColor.WHITE := by
    intro f hf
    have hf' : f ∈ st₂.existingAllocations.filter
        (fun e => decide (e.color = GcAllocationColor.WHITE)) := hf
    have hmem : f ∈ st₂.existingAllocations := (List.mem_filter.mp hf').1
    have hwhite : f.color = GcAllocationColor.WHITE :=
      of_decide_eq_true (List.mem_filter.mp hf').2
    have hpair : (f.blockAddr, f.typeId) ∈
        st.existingAllocations.map (fun e => (e.blockAddr, e.typeId)) := by
      rw [← hpairs₂]
      exact List.mem_map.mpr ⟨f, hmem, rfl⟩
    obtain ⟨ef, hef, hba, htid⟩ := pairs_mem_exists st.existingAllocations _ _ hpair
    exact ⟨ef, hef, hba, htid, hmem, hwhite⟩
  have hgti : ∀ tid, getTypeInfo (sweepKept st₂) tid = getTypeInfo st tid := by
    intro tid
    unfold getTypeInfo
    rw [show (sweepKept st₂).typeInfos = st.typeInfos from hti₂]
  have hrootSafe : ∀ r, (r ∈ st.gcPtrRootNodes ∨ r ∈ st.gcContainerRootNodes) →
      ∀ f ∈ sweepFreed st₂,
        ¬(payloadAddr f.blockAddr ≤ r ∧
          r < payloadAddr f.blockAddr + (getTypeInfo (sweepKept st₂) f.typeId).iTypeSize) := by
    intro r hr f hf
    obtain ⟨ef, hef, hba, htid, _, _⟩ := hfreedInfo f hf
    have hout := wf_roots_outside st hwf r hr ef hef
    rw [hgti f.typeId, ← hba, ← htid]
    exact hout
  have hblackSafe : ∀ a tid off, isBlack st₂ a →
      lookupAssoc st.view.allocTypes a = some tid →
      off < (getTypeInfo st tid).iTypeSize →
      ∀ f ∈ sweepFreed st₂,
        ¬(payloadAddr f.blockAddr ≤ payloadAddr a + off ∧
          payloadAddr a + off < payloadAddr f.blockAddr +
            (getTypeInfo (sweepKept st₂) f.typeId).iTypeSize) := by
    intro a tid off hblack hat hofflt f hf
    obtain ⟨ef, hef, hba, htid, hfmem₂, hwhite⟩ := hfreedInfo f hf
    obtain ⟨ea, hea, haddr, hatid⟩ :=
      pairs_mem_exists st.existingAllocations a tid (lookupAssoc_mem _ _ _ hat)
    have hne : ea.blockAddr ≠ ef.blockAddr := by
      rw [haddr, hba]
      intro hfa
      have hbl := black_entry_of_sync st₂ hsync a hblack f hfmem₂ hfa.symm
      rw [hbl] at hwhite
      cases hwhite
    have hdisj : payloadAddr ea.blockAddr +
          (getTypeInfo st ea.typeId).iTypeSize ≤ payloadAddr ef.blockAddr ∨
        payloadAddr ef.blockAddr +
          (getTypeInfo st ef.typeId).iTypeSize ≤ payloadAddr ea.blockAddr :=
      wf_disjoint st hwf ea hea ef hef hne
    rw [haddr, hatid] at hdisj
    rw [hgti f.typeId, ← hba, ← htid]
    intro hc
    rcases hdisj with h | h <;> omega
  have hkeepOf : ∀ a, isBlack st₂ a →
      ∀ e ∈ st₂.existingAllocations, e.blockAddr = a →
        ¬(e.color = GcAllocationColor.WHITE) := by
    intro a hblack e he hea hcw
    have hbl := black_entry_of_sync st₂ hsync a hblack e he hea
    rw [hbl] at hcw
    cases hcw
  have hrootsfin := hsw.2.2.2.2
    (fun f hf r hr =>
      hrootSafe r (Or.inl (hpr₂ ▸ show r ∈ st₂.gcPtrRootNodes from hr)) f hf)
    (fun f hf r hr =>
      hrootSafe r (Or.inr (hcr₂ ▸ show r ∈ st₂.gcContainerRootNodes from hr)) f hf)
  have hnodefin : ∀ x,
      (∀ f ∈ sweepFreed st₂,
        ¬(payloadAddr f.blockAddr ≤ x ∧
          x < payloadAddr f.blockAddr +
            (getTypeInfo (sweepKept st₂) f.typeId).iTypeSize)) →
      lookupAssoc (collectSweep st₂).1.view.nodes x = lookupAssoc st.view.nodes x := by
    intro x hx
    show lookupAssoc (collectSweep st₂).1.nodes x = lookupAssoc st.nodes x
    rw [hfirst, hsw.2.2.2.1 x hx]
    show lookupAssoc st₂.nodes x = lookupAssoc st.nodes x
    rw [hnodes₂]
  have hprfin : (collectSweep st₂).1.view.ptrRoots = st.view.ptrRoots := by
    show (collectSweep st₂).1.gcPtrRootNodes = st.gcPtrRootNodes
    rw [hfirst, hrootsfin.1]
    exact hpr₂
  have hcrfin : (collectSweep st₂).1.view.containerRoots = st.view.containerRoots := by
    show (collectSweep st₂).1.gcContainerRootNodes = st.gcContainerRootNodes
    rw [hfirst, hrootsfin.2]
    exact hcr₂
  have hatfin : ∀ a tid, isBlack st₂ a →
      lookupAssoc st.view.allocTypes a = some tid →
      lookupAssoc (collectSweep st₂).1.view.allocTypes a = some tid := by
    intro a tid hblack hat
    show lookupAssoc ((collectSweep st₂).1.existingAllocations.map
      (fun e => (e.blockAddr, e.typeId))) a = some tid
    rw [hfirst, hsw.1]
    show lookupAssoc ((st₂.existingAllocations.filter (fun e => ¬(e.color = GcAllocationColor.WHITE))).map (fun e => (e.blockAddr, e.typeId))) a = some tid
    rw [allocTypes_filter_lookup st₂.existingAllocations a (hkeepOf a hblack), hpairs₂]
    exact hat
  have htifin : ∀ tid, getTypeInfoV (collectSweep st₂).1.view tid =
      getTypeInfoV st.view tid := by
    intro tid
    show (lookupAssoc (collectSweep st₂).1.typeInfos tid).getD ⟨0, [], [], false⟩ =
      (lookupAssoc st.typeInfos tid).getD ⟨0, [], [], false⟩
    rw [hfirst, hsw.2.1]
    show (lookupAssoc st₂.typeInfos tid).getD ⟨0, [], [], false⟩ =
      (lookupAssoc st.typeInfos tid).getD ⟨0, [], [], false⟩
    rw [hti₂]
  intro x hx
  induction hx with
  | rootPtr hr hlook =>
      rename_i r b rt
      refine @ReachableV.rootPtr _ r b rt (hprfin ▸ hr) ?_
      rw [hnodefin r (hrootSafe r (Or.inl hr))]
      exact hlook
  | rootContainer hr hlook hit =>
      rename_i r b rt items
      refine @ReachableV.rootContainer _ r b rt items (hcrfin ▸ hr) ?_ hit
      rw [hnodefin r (hrootSafe r (Or.inr hr))]
      exact hlook
  | fieldPtr ha hat hoff hlook ih =>
      rename_i a tid off b rt
      have hblack : isBlack st₂ a := hcomplete a ha
      obtain ⟨ea, hea, haddr, hatid⟩ :=
        pairs_mem_exists st.existingAllocations a tid (lookupAssoc_mem _ _ _ hat)
      have hofflt : off < (getTypeInfo st tid).iTypeSize := by
        have h₀ := (wf_offsets st hwf ea hea).1 off (by rw [hatid]; exact hoff)
        rw [hatid] at h₀
        exact h₀
      refine @ReachableV.fieldPtr _ a tid off b rt ih (hatfin a tid hblack hat) ?_ ?_
      · rw [htifin tid]
        exact hoff
      · rw [hnodefin _ (hblackSafe a tid off hblack hat hofflt)]
        exact hlook
  | fieldContainer ha hat hoff hlook hit ih =>
      rename_i a tid off b rt items
      have hblack : isBlack st₂ a := hcomplete a ha
      obtain ⟨ea, hea, haddr, hatid⟩ :=
        pairs_mem_exists st.existingAllocations a tid (lookupAssoc_mem _ _ _ hat)
      have hofflt : off < (getTypeInfo st tid).iTypeSize := by
        have h₀ := (wf_offsets st hwf ea hea).2 off (by rw [hatid]; exact hoff)
        rw [hatid] at h₀
        exact h₀
      refine @ReachableV.fieldContainer _ a tid off b rt items
        ih (hatfin a tid hblack hat) ?_ ?_ hit
      · rw [htifin tid]
        exact hoff
      · rw [hnodefin _ (hblackSafe a tid off hblack hat hofflt)]
        exact hlook

/-- Destructure a successful collectGarbage run into its mark result:
the state after the mark phase satisfies the mark invariant, BLACK
coincides with reachable-in-the-input-view, and the returned state and
count are the sweep of that marked state. -/
theorem collect_decompose (st : GcState) (fuel : Nat) (st' : GcState) (n : Nat)
    (h : collectGarbage st fuel = Except.ok (st', n)) :
    ∃ st₂, MarkInv st.view st₂ [] ∧
      (∀ x, isBlack st₂ x → ReachableV st.view x) ∧
      (∀ x, ReachableV st.view x → isBlack st₂ x) ∧
      st' = (collectSweep st₂).1 ∧ n = (collectSweep st₂).2 := by
  replace h : (do
      let st₁ ← rootPtrLoop fuel (resetColors st) (resetColors st).gcPtrRootNodes
      let st₂ ← rootContainerLoop fuel st₁ st₁.gcContainerRootNodes
      Except.ok (collectSweep st₂)) = Except.ok (st', n) := h
  cases h₁ : rootPtrLoop fuel (resetColors st) (resetColors st).gcPtrRootNodes with
  | error s => simp [h₁, Bind.bind, Except.bind] at h
  | ok st₁ =>
      rw [h₁] at h
      simp only [Bind.bind, Except.bind] at h
      cases h₂ : rootContainerLoop fuel st₁ st₁.gcContainerRootNodes with
      | error s => simp [h₂] at h
      | ok st₂ =>
          rw [h₂] at h
          injection h with h
          obtain ⟨hinv, hsound, hcomp⟩ := markPhase_spec st fuel st₁ st₂ h₁ h₂
          exact ⟨st₂, hinv, hsound, hcomp, by rw [h], by rw [h]⟩

/-- After a successful collectGarbage run on a well-formed state, every
surviving allocation is reachable in the returned state's own view. -/
theorem collect_post_reachable (st : GcState) (fuel : Nat) (st' : GcState) (n : Nat)
    (hwf : wellFormedB st = true)
    (h : collectGarbage st fuel = Except.ok (st', n)) :
    ∀ e ∈ st'.existingAllocations, ReachableV st'.view e.blockAddr := by
  obtain ⟨st₂, hinv, hsound, hcomp, hst', hn⟩ := collect_decompose st fuel st' n h
  have htrans := sweep_reachable_transfer st st₂ hinv.1 hinv.2.1 hcomp hwf
  subst hst'
  intro e he
  have he₂ : e ∈ (sweepFoldFn (sweepFreed st₂) (sweepKept st₂)).existingAllocations := he
  rw [(sweepFoldFn_spec (sweepFreed st₂) (sweepKept st₂)).1] at he₂
  have he' : e ∈ st₂.existingAllocations.filter
      (fun e => decide ¬(e.color = GcAllocationColor.WHITE)) := he₂
  have hmem : e ∈ st₂.existingAllocations := (List.mem_filter.mp he').1
  have hnw : ¬(e.color = GcAllocationColor.WHITE) :=
    of_decide_eq_true (List.mem_filter.mp he').2
  have hblack : isBlack st₂ e.blockAddr :=
    isBlack_of_mem_sync st₂ hinv.2.1 e hmem (color_eq_black_of_ne_white e.color hnw)
  exact htrans e.blockAddr (hsound e.blockAddr hblack)

/-- After a successful collectGarbage run, every surviving allocation
is colored BLACK (its mark from the just-finished mark phase). -/
theorem collect_post_black (st : GcState) (fuel : Nat) (st' : GcState) (n : Nat)
    (h : collectGarbage st fuel = Except.ok (st', n)) :
    ∀ e ∈ st'.existingAllocations, e.color = GcAllocationColor.BLACK := by
  obtain ⟨st₂, _, _, _, hst', _⟩ := collect_decompose st fuel st' n h
  subst hst'
  intro e he
  have he₂ : e ∈ (sweepFoldFn (sweepFreed st₂) (sweepKept st₂)).existingAllocations := he
  rw [(sweepFoldFn_spec (sweepFreed st₂) (sweepKept st₂)).1] at he₂
  have he' : e ∈ st₂.existingAllocations.filter
      (fun e => decide ¬(e.color = GcAllocationColor.WHITE)) := he₂
  exact color_eq_black_of_ne_white e.color
    (of_decide_eq_true (List.mem_filter.mp he').2)

/-- Two allocation-entry lists with the same (address, type) pairs in
the same order and all colors BLACK on both sides are equal. -/
theorem entries_eq_of_pairs_black : ∀ (l₁ l₂ : List GcAllocEntry),
    l₁.map (fun e => (e.blockAddr, e.typeId)) = l₂.map (fun e => (e.blockAddr, e.typeId)) →
    (∀ e ∈ l₁, e.color = GcAllocationColor.BLACK) →
    (∀ e ∈ l₂, e.color = GcAllocationColor.BLACK) →
    l₁ = l₂ := by
  intro l₁
  induction l₁ with
  | nil =>
      intro l₂ h _ _
      cases l₂ with
      | nil => rfl
      | cons f rest₂ => simp at h
  | cons e rest ih =>
      intro l₂ h hb₁ hb₂
      cases l₂ with
      | nil => simp at h
      | cons f rest₂ =>
          simp only [List.map_cons, List.cons.injEq, Prod.mk.injEq] at h
          obtain ⟨⟨hba, hti⟩, hrest⟩ := h
          have hbe := hb₁ e (List.mem_cons_self _ _)
          have hbf := hb₂ f (List.mem_cons_self _ _)
          have he : e = f := by
            cases e
            cases f
            simp at hba hti hbe hbf
            simp [hba, hti, hbe, hbf]
          rw [he, ih rest₂ hrest
            (fun x hx => hb₁ x (List.mem_cons_of_mem _ hx))
            (fun x hx => hb₂ x (List.mem_cons_of_mem _ hx))]

/-- C2: in every program state in which collectGarbage has just
returned (over any well-formed input state), every allocation that
remains in the collector's allocation set is reachable from the root
set: along edges from a root pointer (or a pointer enumerated by a root
container) to its target allocation, and from an allocation through its
type record's pointer-field offsets and container-field enumeration to
further target allocations. -/
theorem c2_post_collect_reachable (st : GcState) (fuel : Nat) (st' : GcState) (n : Nat)
    (hwf : wellFormedB st = true)
    (h : collectGarbage st fuel = Except.ok (st', n)) :
    ∀ e ∈ st'.existingAllocations, ReachableV st'.view e.blockAddr :=
  collect_post_reachable st fuel st' n hwf h

/-- The C2 theorem applied to the concrete quiescent witness state: the
state is well-formed, collection succeeds on it, and every surviving
allocation is reachable in the post-collection state. -/
theorem c2_post_collect_reachable_witness :
    wellFormedB collectWitnessState = true ∧
    collectGarbage collectWitnessState 4 = Except.ok (collectWitnessStateAfter, 0) ∧
    (∀ e ∈ collectWitnessStateAfter.existingAllocations,
      ReachableV collectWitnessStateAfter.view e.blockAddr) :=
  ⟨by decide, by decide,
   c2_post_collect_reachable collectWitnessState 4 collectWitnessStateAfter 0
     (by decide) (by decide)⟩

/-- C4: collectGarbage is idempotent over quiescent states: if it is
called twice (on any well-formed state) with no creation, destruction
or rebinding of managed nodes, allocations or containers in between,
the second call returns 0 and frees no allocation (the allocation set
is unchanged). -/
theorem c4_second_collect_frees_nothing (st : GcState) (fuel₁ fuel₂ : Nat)
    (st' st'' : GcState) (n₁ n₂ : Nat)
    (hwf : wellFormedB st = true)
    (h₁ : collectGarbage st fuel₁ = Except.ok (st', n₁))
    (h₂ : collectGarbage st' fuel₂ = Except.ok (st'', n₂)) :
    n₂ = 0 ∧ st''.existingAllocations = st'.existingAllocations := by
  have hblack' : ∀ e ∈ st'.existingAllocations, e.color = GcAllocationColor.BLACK :=
    collect_post_black st fuel₁ st' n₁ h₁
  have hreach' : ∀ e ∈ st'.existingAllocations, ReachableV st'.view e.blockAddr :=
    collect_post_reachable st fuel₁ st' n₁ hwf h₁
  obtain ⟨st₂, hinv', hsound', hcomp', hst'', hn₂⟩ := collect_decompose st' fuel₂ st'' n₂ h₂
  have hview' : st₂.view = st'.view := hinv'.1
  have hsync' : ColorsSync st₂ := hinv'.2.1
  have hpairs' : st₂.existingAllocations.map (fun e => (e.blockAddr, e.typeId)) =
      st'.existingAllocations.map (fun e => (e.blockAddr, e.typeId)) :=
    congrArg GcView.allocTypes hview'
  have hblack₂ : ∀ e ∈ st₂.existingAllocations, e.color = GcAllocationColor.BLACK := by
    intro e he
    have hp : (e.blockAddr, e.typeId) ∈
        st'.existingAllocations.map (fun e => (e.blockAddr, e.typeId)) := by
      rw [← hpairs']
      exact List.mem_map.mpr ⟨e, he, rfl⟩
    obtain ⟨e₀, he₀, hba, _⟩ := pairs_mem_exists st'.existingAllocations _ _ hp
    have hb : isBlack st₂ e.blockAddr := hcomp' e.blockAddr (hba ▸ hreach' e₀ he₀)
    exact black_entry_of_sync st₂ hsync' e.blockAddr hb e he rfl
  have hfreednil : sweepFreed st₂ = [] := by
    refine List.filter_eq_nil_iff.mpr ?_
    intro e he
    rw [hblack₂ e he]
    decide
  have hkeepall : st₂.existingAllocations.filter
      (fun e => decide ¬(e.color = GcAllocationColor.WHITE)) =
      st₂.existingAllocations := by
    refine List.filter_eq_self.mpr ?_
    intro e he
    rw [hblack₂ e he]
    decide
  refine ⟨?_, ?_⟩
  · rw [hn₂, show (collectSweep st₂).2 = (sweepFreed st₂).length from rfl, hfreednil]
    rfl
  · rw [hst'']
    have hx : (collectSweep st₂).1.existingAllocations =
        (sweepKept st₂).existingAllocations :=
      (sweepFoldFn_spec (sweepFreed st₂) (sweepKept st₂)).1
    rw [hx]
    show st₂.existingAllocations.filter
      (fun e => decide ¬(e.color = GcAllocationColor.WHITE)) = st'.existingAllocations
    rw [hkeepall]
    exact entries_eq_of_pairs_black st₂.existingAllocations st'.existingAllocations
      hpairs' hblack₂ hblack'

/-- The C4 theorem applied to the concrete quiescent witness state: a
first collection succeeds and a second collection straight after frees
nothing and leaves the allocation set unchanged. -/
theorem c4_second_collect_frees_nothing_witness :
    wellFormedB collectWitnessState = true ∧
    collectGarbage collectWitnessState 4 = Except.ok (collectWitnessStateAfter, 0) ∧
    collectGarbage collectWitnessStateAfter 4 = Except.ok (collectWitnessStateAfter, 0) ∧
    (0 = 0 ∧ collectWitnessStateAfter.existingAllocations =
      collectWitnessStateAfter.existingAllocations) :=
  ⟨by decide, by decide, by decide,
   c4_second_collect_frees_nothing collectWitnessState 4 4
     collectWitnessStateAfter collectWitnessStateAfter 0 0
     (by decide) (by decide) (by decide)⟩

end SGC
